import Mathlib

/-!
Verification of the folder-sync mirroring script (src/script.py).

The script repeatedly mirrors a source directory tree onto a replica tree:
a forward pass (FileSync.sync_source_to_replica) walks the source with
os.walk, creates missing replica directories and copies changed files, and a
cleanup pass (FileSync.clean_replica) walks the replica bottom-up and removes
entries whose source counterpart does not exist.

We shallowly embed the script over a finite directory-tree model.  All
operations of one reconciliation pass are local to the directory being
visited: the forward pass at a visited source directory only stats, writes and
renames direct children of the mirrored replica directory, and the cleanup
pass at a visited replica directory only removes direct children.  The
embedding therefore threads each visited directory's child list through the
per-directory operations, carrying the absolute relative path only to key the
injected fault environment.

Modelling conventions:
* file contents are byte lists; st_size is the byte length;
* st_mtime (a Python float of seconds) is a natural number of nanoseconds;
  Python's int() truncation is division by nsPerSec;
* the MD5 digest is modelled as an injective function of the content
  (hash collisions are abstracted away);
* per-item I/O faults are injected through explicit environments:
  a file's readable flag (open-for-read succeeds), a copy fault oracle
  (shutil.copy2 aborts after writing a prefix, e.g. disk full), and a removal
  fault oracle (unlink/rmtree raises PermissionError).
-/

namespace FSync

/-- Nanoseconds per second: granularity of the modelled st_mtime.  Python's
int(st_mtime) is division by this constant. -/
def nsPerSec : Nat := 1000000000

/-- Conventional st_size reported by os.stat for a directory. -/
def dirStatSize : Nat := 4096

mutual

/-- A filesystem entry: a regular file (content bytes, st_mtime in
nanoseconds, readable flag) or a directory with named children in directory
order (the order os.scandir, hence os.walk, reports them). -/
inductive Entry where
  | file (content : List Nat) (mtime : Nat) (readable : Bool)
  | dir (mtime : Nat) (children : Children)

/-- Ordered association list of named children of a directory. -/
inductive Children where
  | nil
  | cons (name : String) (e : Entry) (rest : Children)

end

/-- First entry with the given name, as the OS resolves a name in a
directory. -/
def Children.lookup : Children → String → Option Entry
  | .nil, _ => none
  | .cons m e rest, n => if m = n then some e else rest.lookup n

/-- Existence test for a name in a directory. -/
def Children.hasName (ch : Children) (n : String) : Bool :=
  (ch.lookup n).isSome

/-- Replace the entry under an existing name, or append a new entry at the
end of the directory listing (creation order). -/
def Children.set : Children → String → Entry → Children
  | .nil, n, e => .cons n e .nil
  | .cons m e₀ rest, n, e =>
    if m = n then .cons m e rest else .cons m e₀ (rest.set n e)

/-- Remove the entry under a name (unlink / rmtree of a direct child). -/
def Children.erase : Children → String → Children
  | .nil, _ => .nil
  | .cons m e rest, n => if m = n then rest else .cons m e (rest.erase n)

/-- Whether an entry is a directory. -/
def Entry.isDir : Entry → Bool
  | .file .. => false
  | .dir .. => true

/-- Resolve a relative path (list of components) below an entry. -/
def Entry.find? : Entry → List String → Option Entry
  | e, [] => some e
  | .file .., _ :: _ => none
  | .dir _ ch, n :: rest =>
    match ch.lookup n with
    | some e => e.find? rest
    | none => none

/-- Content of the file at a path, if a file is there. -/
def contentAt (e : Entry) (p : List String) : Option (List Nat) :=
  match e.find? p with
  | some (.file c _ _) => some c
  | _ => none

/-- Existence of a path (os.path.exists). -/
def existsAt (e : Entry) (p : List String) : Bool :=
  (e.find? p).isSome

/-- Whether the path resolves to a directory. -/
def isDirAt (e : Entry) (p : List String) : Bool :=
  match e.find? p with
  | some d => d.isDir
  | none => false

/-- Content of a directory's direct child, if that child is a file. -/
def childContent (ch : Children) (n : String) : Option (List Nat) :=
  match ch.lookup n with
  | some (.file c _ _) => some c
  | _ => none

/-- Child entry of an optional entry: the children of a directory, nothing
below a file or a missing path. -/
def childOf : Option Entry → String → Option Entry
  | some (.dir _ ch), n => ch.lookup n
  | _, _ => none

/-- Index of the last dot in a name's characters, counting from position k.
Used to model pathlib suffix computation. -/
def lastDotFrom : List Char → Nat → Option Nat
  | [], _ => none
  | c :: rest, k =>
    match lastDotFrom rest (k + 1) with
    | some j => some j
    | none => if c = '.' then some k else none

/-- Stem of a file name under pathlib rules: PurePath.suffix is the part from
the last dot when that dot is neither the first nor the last character;
with_suffix strips exactly that suffix.  Source: Path.with_suffix at
src/script.py line 100. -/
def stemChars (cs : List Char) : List Char :=
  match lastDotFrom cs 0 with
  | some i => if 0 < i ∧ i + 1 < cs.length then cs.take i else cs
  | none => cs

/-- Temporary-file name used by copy_file: replica_file.with_suffix of
".tmp" (src/script.py line 100). -/
def tmpNameOf (n : String) : String :=
  ⟨stemChars n.data ++ ".tmp".data⟩

/-- MD5 digest, modelled as an injective function of the content; real MD5
collisions are abstracted away. -/
def md5 (b : List Nat) : List Nat := b

/-- Model of FileSync.calculate_file_hash (src/script.py lines 60-73): open
the path and stream its bytes through MD5; on any exception (missing path,
permission error, directory) log and return None. -/
def calculate_file_hash : Option Entry → Option (List Nat)
  | some (.file c _ true) => some (md5 c)
  | _ => none

/-- st_size and st_mtime of an entry as reported by os.stat. -/
def statOf : Entry → Nat × Nat
  | .file c m _ => (c.length, m)
  | .dir m _ => (dirStatSize, m)

/-- Model of FileSync.are_files_different (src/script.py lines 75-93),
taking the resolved source and replica entries.  Both paths are stat-ed
(FileNotFoundError on either gives True); then sizes are compared; then
int(source mtime) is compared with the raw replica mtime; then the path
existence re-check of line 90; finally the MD5 digests (Option values:
a failed hash is None) are compared with Python's inequality. -/
def are_files_different (sE rE : Option Entry) : Bool :=
  match sE, rE with
  | some se, some re =>
    if (statOf se).1 ≠ (statOf re).1 then true
    else if (statOf se).2 / nsPerSec * nsPerSec = (statOf re).2 then false
    else if (some re).isNone then true
    else decide (calculate_file_hash sE ≠ calculate_file_hash rE)
  | _, _ => true

/-- Result of shutil.copy2: either a completed copy or a raised exception,
in both cases carrying the state of the destination directory's children
(a failed copy can leave a partial temporary file behind). -/
inductive CopyResult where
  | ok (ch : Children)
  | fail (ch : Children)

/-- Write a file entry under a name: open of the destination for writing
fails (IsADirectoryError) when a directory sits at that name, otherwise the
entry is created or truncated and replaced. -/
def writeChild (ch : Children) (n : String) (e : Entry) : Option Children :=
  match ch.lookup n with
  | some (.dir ..) => none
  | _ => some (ch.set n e)

/-- Model of shutil.copy2(source_file, tmp) within the destination
directory (src/script.py line 102).  The source is opened first (missing or
unreadable source raises before the destination is touched); then the
destination is written; a fault of k (disk full after k bytes) leaves a
truncated prefix at the destination and raises before metadata is copied;
on success the source's mtime is preserved by copystat. -/
def copy2 (fault : Option Nat) (sE : Option Entry) (ch : Children)
    (tmpName : String) : CopyResult :=
  match sE with
  | some (.file c m true) =>
    match fault with
    | none =>
      match writeChild ch tmpName (.file c m true) with
      | some ch₂ => .ok ch₂
      | none => .fail ch
    | some k =>
      match writeChild ch tmpName (.file (c.take k) 0 true) with
      | some ch₂ => .fail ch₂
      | none => .fail ch
  | _ => .fail ch

/-- Model of os.replace(tmp, replica_file) within one directory
(src/script.py line 103): atomic rename; renaming a path onto itself
succeeds and is a no-op; renaming onto a directory raises. -/
def osReplace (ch : Children) (tmpName dstName : String) : Option Children :=
  match ch.lookup tmpName with
  | none => none
  | some e =>
    if tmpName = dstName then some ch
    else
      match ch.lookup dstName with
      | some (.dir ..) => none
      | _ => some ((ch.erase tmpName).set dstName e)

/-- Model of FileSync.copy_file (src/script.py lines 95-109) acting on the
children of the destination's directory.  The temporary name is the
destination name with suffix replaced by ".tmp"; the
replica_file.parent.mkdir(parents, exist_ok) call of line 101 is a no-op
here because the parent directory is the one being visited and exists; then
copy2 writes the temporary file and os.replace renames it onto the
destination; every exception is caught and reported as False with the
directory left in the state the failed step produced. -/
def copy_file (fault : Option Nat) (sE : Option Entry) (ch : Children)
    (dstName : String) : Bool × Children :=
  let tmpName := tmpNameOf dstName
  match copy2 fault sE ch tmpName with
  | .fail ch₂ => (false, ch₂)
  | .ok ch₂ =>
    match osReplace ch₂ tmpName dstName with
    | none => (false, ch₂)
    | some ch₃ => (true, ch₃)

/-- One file-loop of the forward pass (src/script.py lines 171-181): walk
the current source directory's listing in order and, for each regular file,
run the change decision against the current replica directory state and on a
positive decision attempt the copy, counting files_copied on success and
errors on failure.  The fault oracle is keyed by the file's relative path. -/
def syncFiles (cf : List String → Option Nat) (relp : List String) :
    Children → Children → Nat × Nat × Children
  | .nil, repCh => (0, 0, repCh)
  | .cons n e rest, repCh =>
    match e with
    | .dir .. => syncFiles cf relp rest repCh
    | .file c m rd =>
      if are_files_different (some (.file c m rd)) (repCh.lookup n) then
        match copy_file (cf (relp ++ [n])) (some (.file c m rd)) repCh n with
        | (true, ch₂) =>
          let (fc, er, ch₃) := syncFiles cf relp rest ch₂
          (fc + 1, er, ch₃)
        | (false, ch₂) =>
          let (fc, er, ch₃) := syncFiles cf relp rest ch₂
          (fc, er + 1, ch₃)
      else syncFiles cf relp rest repCh

/-- One directory-loop of the forward pass (src/script.py lines 182-188):
for each subdirectory name of the visited source directory, create the
mirrored replica child when no entry of that name exists (files also count
as existing, as Path.exists does) and count dirs_created.  The creation
itself cannot fail here: the parent is the directory at hand and the name is
free. -/
def syncMkdirs : Children → Children → Nat × Children
  | .nil, repCh => (0, repCh)
  | .cons n e rest, repCh =>
    match e with
    | .file .. => syncMkdirs rest repCh
    | .dir .. =>
      if repCh.hasName n then syncMkdirs rest repCh
      else
        let (dc, ch₂) := syncMkdirs rest (repCh.set n (.dir 0 .nil))
        (dc + 1, ch₂)

/-- Model of os.makedirs(replica_dir_path, exist_ok) for the directory being
visited (src/script.py line 169), given the current replica entry at the
visited path: an existing directory is kept, a missing one is created empty,
and a file in the way raises FileExistsError, which line 169 does not catch.
The result carries the directory's mtime and children. -/
def dirOrMake : Option Entry → Option (Nat × Children)
  | some (.dir m ch) => some (m, ch)
  | some (.file ..) => none
  | none => some (0, .nil)

/-- Recursion of the forward walk (os.walk is top-down: a visited source
directory's whole body — makedirs, file loop, directory loop — runs before
the walk descends into its subdirectories in listing order).  Walking the
listing, each subdirectory visit resolves the mirrored replica entry,
materialises it with makedirs, runs the file and directory loops, recurses,
and writes the rebuilt replica child back.  A raised FileExistsError from
makedirs propagates (None). -/
def syncSubdirs (cf : List String → Option Nat) (relp : List String) :
    Children → Children → Option (Nat × Nat × Nat × Children)
  | .nil, repCh => some (0, 0, 0, repCh)
  | .cons n e rest, repCh =>
    match e with
    | .file .. => syncSubdirs cf relp rest repCh
    | .dir _ sub =>
      match dirOrMake (repCh.lookup n) with
      | none => none
      | some (md, r0) =>
        let (fc₁, er₁, r1) := syncFiles cf (relp ++ [n]) sub r0
        let (dc₁, r2) := syncMkdirs sub r1
        match syncSubdirs cf (relp ++ [n]) sub r2 with
        | none => none
        | some (fc₂, dc₂, er₂, r3) =>
          match syncSubdirs cf relp rest (repCh.set n (.dir md r3)) with
          | none => none
          | some (fc₃, dc₃, er₃, out) =>
            some (fc₁ + fc₂ + fc₃, dc₁ + dc₂ + dc₃, er₁ + er₂ + er₃, out)

/-- Model of FileSync.sync_source_to_replica (src/script.py lines 159-190):
os.walk the source root (walking a non-directory yields nothing), visiting
the root first — makedirs on the mirrored root, the file loop, the
directory loop — and then each subtree.  Returns files_copied,
dirs_created, errors and the new replica, or None when an uncaught
exception escapes the pass. -/
def sync_source_to_replica (cf : List String → Option Nat)
    (src rep : Entry) : Option (Nat × Nat × Nat × Entry) :=
  match src with
  | .file .. => some (0, 0, 0, rep)
  | .dir _ sch =>
    match dirOrMake (some rep) with
    | none => none
    | some (md, r0) =>
      let (fc₁, er₁, r1) := syncFiles cf [] sch r0
      let (dc₁, r2) := syncMkdirs sch r1
      match syncSubdirs cf [] sch r2 with
      | none => none
      | some (fc₂, dc₂, er₂, r3) =>
        some (fc₁ + fc₂, dc₁ + dc₂, er₁ + er₂, .dir md r3)

/-- File-loop of one cleanup visit (src/script.py lines 201-207): walk the
snapshot listing the walk captured for the visited replica directory; a file
whose source counterpart does not exist is removed from the actual directory
(unless the removal oracle makes unlink raise, which
remove_file_or_directory catches) and files_removed is counted in either
case — the counter at line 207 runs regardless of the removal's outcome. -/
def cleanFiles (rf : List String → Bool) (relp : List String)
    (sOpt : Option Entry) : Children → Children → Nat × Children
  | .nil, ac => (0, ac)
  | .cons n e rest, ac =>
    match e with
    | .dir .. => cleanFiles rf relp sOpt rest ac
    | .file .. =>
      if (childOf sOpt n).isSome then cleanFiles rf relp sOpt rest ac
      else
        let ac₂ := if rf (relp ++ [n]) then ac else ac.erase n
        let (fr, ac₃) := cleanFiles rf relp sOpt rest ac₂
        (fr + 1, ac₃)

/-- Directory-loop of one cleanup visit (src/script.py lines 209-215): same
as the file loop with rmtree and dirs_removed. -/
def cleanDirs (rf : List String → Bool) (relp : List String)
    (sOpt : Option Entry) : Children → Children → Nat × Children
  | .nil, ac => (0, ac)
  | .cons n e rest, ac =>
    match e with
    | .file .. => cleanDirs rf relp sOpt rest ac
    | .dir .. =>
      if (childOf sOpt n).isSome then cleanDirs rf relp sOpt rest ac
      else
        let ac₂ := if rf (relp ++ [n]) then ac else ac.erase n
        let (dr, ac₃) := cleanDirs rf relp sOpt rest ac₂
        (dr + 1, ac₃)

/-- Recursion of the cleanup walk.  os.walk with topdown False scandirs the
visited directory before descending, so each visit iterates the snapshot
listing; since the walk is strictly sequential and removals stay inside the
directory being visited, the replica child a visit starts from is exactly
its snapshot.  Children are visited before their parent: for every
subdirectory of the snapshot listing the walk recurses, then runs that
child's file loop and directory loop, and writes the result back; files of
the current listing are left to the parent's own visit. -/
def cleanSubdirs (rf : List String → Bool) (relp : List String)
    (sOpt : Option Entry) : Children → Children → Nat × Nat × Children
  | .nil, ac => (0, 0, ac)
  | .cons n e rest, ac =>
    match e with
    | .file .. => cleanSubdirs rf relp sOpt rest ac
    | .dir m sub =>
      let sChild := childOf sOpt n
      let (frA, drA, sub₁) := cleanSubdirs rf (relp ++ [n]) sChild sub sub
      let (frB, sub₂) := cleanFiles rf (relp ++ [n]) sChild sub sub₁
      let (drB, sub₃) := cleanDirs rf (relp ++ [n]) sChild sub sub₂
      let (frR, drR, out) :=
        cleanSubdirs rf relp sOpt rest (ac.set n (.dir m sub₃))
      (frA + frB + frR, drA + drB + drR, out)

/-- Model of FileSync.clean_replica (src/script.py lines 192-217): os.walk
the replica root bottom-up (walking a non-directory yields nothing); every
subtree is cleaned first, then the root's own file loop and directory loop
run.  Returns files_removed, dirs_removed and the new replica; no exception
can escape because remove_file_or_directory catches everything. -/
def clean_replica (rf : List String → Bool) (src rep : Entry) :
    Nat × Nat × Entry :=
  match rep with
  | .file .. => (0, 0, rep)
  | .dir m ch =>
    let (frA, drA, ch₁) := cleanSubdirs rf [] (some src) ch ch
    let (frB, ch₂) := cleanFiles rf [] (some src) ch ch₁
    let (drB, ch₃) := cleanDirs rf [] (some src) ch ch₂
    (frA + frB, drA + drB, .dir m ch₃)

/-- Per-iteration statistics tallied by FileSync.sync
(src/script.py lines 136-152). -/
structure Stats where
  files_copied : Nat
  files_removed : Nat
  dirs_created : Nat
  dirs_removed : Nat
  errors : Nat
deriving DecidableEq, Repr

/-- One reconciliation pass of FileSync.sync (src/script.py lines 146-149):
the forward pass followed by the cleanup pass on its result; errors are
tallied by the forward pass only — clean_replica returns no error count.
None when an exception escapes the forward pass. -/
def runPass (cf : List String → Option Nat) (rf : List String → Bool)
    (src rep : Entry) : Option (Stats × Entry) :=
  match sync_source_to_replica cf src rep with
  | none => none
  | some (fc, dc, er, rep₁) =>
    let (fr, dr, rep₂) := clean_replica rf src rep₁
    some (⟨fc, fr, dc, dr, er⟩, rep₂)

/-- Copy-fault oracle injecting no faults. -/
def cf0 : List String → Option Nat := fun _ => none

/-- Removal-fault oracle injecting no faults. -/
def rf0 : List String → Bool := fun _ => false

/-- Outcome of constructing FileSync (src/script.py lines 21-31 and 42-58). -/
inductive InitOutcome where
  | ok
  | fatalSourceMissing
  | attrError
deriving DecidableEq, Repr

/-- Model of FileSync.validate_paths (src/script.py lines 42-58) as called
from FileSync.init at line 28, parameterised by whether the logger attribute
has been initialised at call time: a missing source raises
FileNotFoundError; a missing replica or log file reaches self.logger.info
first, which raises AttributeError when the logger is not yet set, and
otherwise the missing directory or file is created. -/
def validate_paths (loggerReady sourceExists replicaExists logExists :
    Bool) : InitOutcome :=
  if !sourceExists then .fatalSourceMissing
  else if !replicaExists then
    (if loggerReady then .ok else .attrError)
  else if !logExists then
    (if loggerReady then .ok else .attrError)
  else .ok

/-- Model of FileSync.init (src/script.py lines 21-31): validate_paths runs
at line 28, before self.logger is assigned at line 30, so the logger is not
ready during validation. -/
def fileSyncInit (sourceExists replicaExists logExists : Bool) :
    InitOutcome :=
  validate_paths false sourceExists replicaExists logExists

/-- Whether a name ends in ".tmp" — exactly the names whose with_suffix
temporary name can coincide with a real entry name. -/
def endsTmp (n : String) : Bool :=
  ".tmp".data.isSuffixOf n.data

mutual

/-- Well-formed entry: no directory anywhere lists two children under the
same name (a real filesystem cannot). -/
def wfE : Entry → Bool
  | .file .. => true
  | .dir _ ch => wfCh ch

/-- Well-formed child list: names are distinct and entries well-formed. -/
def wfCh : Children → Bool
  | .nil => true
  | .cons n e rest => !rest.hasName n && wfE e && wfCh rest

end

mutual

/-- No entry name anywhere in the tree ends in ".tmp". -/
def noTmpE : Entry → Bool
  | .file .. => true
  | .dir _ ch => noTmpCh ch

/-- Child-list form of noTmpE. -/
def noTmpCh : Children → Bool
  | .nil => true
  | .cons n e rest => !endsTmp n && noTmpE e && noTmpCh rest

end

mutual

/-- Every file in the tree is readable. -/
def readableE : Entry → Bool
  | .file _ _ r => r
  | .dir _ ch => readableCh ch

/-- Child-list form of readableE. -/
def readableCh : Children → Bool
  | .nil => true
  | .cons _ e rest => readableE e && readableCh rest

end

/-- Concatenation of directory listings. -/
def Children.append : Children → Children → Children
  | .nil, ys => ys
  | .cons n e rest, ys => .cons n e (rest.append ys)

/-- The file children a completed forward pass produces from a source
listing: the files in source order, made readable by the copy (copy2 copies
the source's permission bits; a file the pass copied was readable). -/
def mapFiles : Children → Children
  | .nil => .nil
  | .cons n e rest =>
    match e with
    | .file c m _ => .cons n (.file c m true) (mapFiles rest)
    | .dir .. => mapFiles rest

/-- The directory children a completed forward pass produces from a source
listing: the subdirectories in source order, created with mkdir (hence
mtime 0 in the model), each holding the mirror of its source subtree. -/
def mirrorDirs : Children → Children
  | .nil => .nil
  | .cons n e rest =>
    match e with
    | .file .. => mirrorDirs rest
    | .dir _ sub =>
      .cons n (.dir 0 ((mapFiles sub).append (mirrorDirs sub))) (mirrorDirs rest)

/-- Mirror of a source listing as the forward pass materialises it inside
one replica directory: copied files first (the file loop runs before the
directory loop), then created subdirectories. -/
def mirrorCh (ch : Children) : Children :=
  (mapFiles ch).append (mirrorDirs ch)

/-- Number of files in a whole tree below a listing. -/
def countFiles : Children → Nat
  | .nil => 0
  | .cons _ e rest =>
    match e with
    | .file .. => countFiles rest + 1
    | .dir _ sub => countFiles sub + countFiles rest

/-- Number of directories in a whole tree below a listing (each counted at
its parent; the root is not counted, as in the script). -/
def countDirs : Children → Nat
  | .nil => 0
  | .cons _ e rest =>
    match e with
    | .file .. => countDirs rest
    | .dir _ sub => countDirs sub + countDirs rest + 1

/-- Number of files directly in a listing. -/
def countFilesTop : Children → Nat
  | .nil => 0
  | .cons _ e rest =>
    match e with
    | .file .. => countFilesTop rest + 1
    | .dir .. => countFilesTop rest

/-- Number of directories directly in a listing. -/
def countDirsTop : Children → Nat
  | .nil => 0
  | .cons _ e rest =>
    match e with
    | .file .. => countDirsTop rest
    | .dir .. => countDirsTop rest + 1

/-- Number of files strictly below the top level of a listing. -/
def countFilesBelow : Children → Nat
  | .nil => 0
  | .cons _ e rest =>
    match e with
    | .file .. => countFilesBelow rest
    | .dir _ sub => countFiles sub + countFilesBelow rest

/-- Number of directories strictly below the top level of a listing. -/
def countDirsBelow : Children → Nat
  | .nil => 0
  | .cons _ e rest =>
    match e with
    | .file .. => countDirsBelow rest
    | .dir _ sub => countDirs sub + countDirsBelow rest

/-- Whether a listing has a file child of the given name. -/
def hasFileName : Children → String → Bool
  | .nil, _ => false
  | .cons n e rest, k =>
    match e with
    | .file .. => n = k || hasFileName rest k
    | .dir .. => hasFileName rest k

/-- Whether a listing has a directory child of the given name. -/
def hasDirName : Children → String → Bool
  | .nil, _ => false
  | .cons n e rest, k =>
    match e with
    | .file .. => hasDirName rest k
    | .dir .. => n = k || hasDirName rest k

/-- Empty replica directories the forward pass's directory loop creates
from a source listing, in order. -/
def emptyDirsTop : Children → Children
  | .nil => .nil
  | .cons n e rest =>
    match e with
    | .file .. => emptyDirsTop rest
    | .dir .. => .cons n (.dir 0 .nil) (emptyDirsTop rest)

/-- Replica transformation performed by the subdirectory recursion of a
fault-free forward pass: each source subdirectory's replica child is
replaced by the full mirror of that subtree. -/
def fillDirs : Children → Children → Children
  | .nil, acc => acc
  | .cons n e rest, acc =>
    match e with
    | .file .. => fillDirs rest acc
    | .dir _ sub => fillDirs rest (acc.set n (.dir 0 (mirrorCh sub)))

/-- Agreement of a source entry with a listing: every name of the listing
resolves under the source to an entry of the same shape — files exist, and
a directory child's source children are exactly the listing's.  Holds of a
well-formed directory and its own listing, and is what one cleanup visit
needs in order to remove nothing. -/
def SrcAgrees (s : Option Entry) : Children → Prop
  | .nil => True
  | .cons n e rest =>
    (match e with
     | .file .. => (childOf s n).isSome = true
     | .dir _ sub => ∃ m₂, childOf s n = some (.dir m₂ sub)) ∧
    SrcAgrees s rest

/-- Modelled from the claim of the change-detection contract, following its
words: true when the replica file does not exist; else true when byte sizes
differ; else false when the integer-truncated (second-resolution)
modification times of the two files are equal; otherwise true iff the MD5
hashes differ. -/
def needs_copy_claim (se : Entry) (rE : Option Entry) : Bool :=
  match rE with
  | none => true
  | some re =>
    if (statOf se).1 ≠ (statOf re).1 then true
    else if (statOf se).2 / nsPerSec = (statOf re).2 / nsPerSec then false
    else decide (calculate_file_hash (some se) ≠ calculate_file_hash rE)

/-- The change decision the code actually implements, stated as a
specification: true when the replica file does not exist; else true when
byte sizes differ; else false when the truncated source modification time,
as a whole-second value, equals the replica's raw modification time;
otherwise true iff the (Option-valued) MD5 hash results differ. -/
def needs_copy_amended (se : Entry) (rE : Option Entry) : Bool :=
  match rE with
  | none => true
  | some re =>
    if (statOf se).1 ≠ (statOf re).1 then true
    else if (statOf se).2 / nsPerSec * nsPerSec = (statOf re).2 then false
    else decide (calculate_file_hash (some se) ≠ calculate_file_hash rE)

/-- Children list carried by either constructor of a copy result. -/
def CopyResult.state : CopyResult → Children
  | .ok ch => ch
  | .fail ch => ch

/-- Orphan files counted by one cleanup visit's file loop: a function of
the snapshot listing and the source only, because the loop counts every
orphan whether or not its removal succeeds. -/
def orphanFilesHere (s : Option Entry) : Children → Nat
  | .nil => 0
  | .cons n e rest =>
    match e with
    | .dir .. => orphanFilesHere s rest
    | .file .. =>
      if (childOf s n).isSome then orphanFilesHere s rest
      else orphanFilesHere s rest + 1

/-- Orphan directories counted by one cleanup visit's directory loop. -/
def orphanDirsHere (s : Option Entry) : Children → Nat
  | .nil => 0
  | .cons n e rest =>
    match e with
    | .file .. => orphanDirsHere s rest
    | .dir .. =>
      if (childOf s n).isSome then orphanDirsHere s rest
      else orphanDirsHere s rest + 1

/-- Orphan files and directories counted by the whole cleanup recursion
below a listing, as a pure function of snapshot and source. -/
def orphanCounts (s : Option Entry) : Children → Nat × Nat
  | .nil => (0, 0)
  | .cons n e rest =>
    match e with
    | .file .. => orphanCounts s rest
    | .dir _ sub =>
      let inner := orphanCounts (childOf s n) sub
      let fB := orphanFilesHere (childOf s n) sub
      let dB := orphanDirsHere (childOf s n) sub
      let restc := orphanCounts s rest
      (inner.1 + fB + restc.1, inner.2 + dB + restc.2)

/-! ## Theorems -/

/-- Setting one name leaves lookups of other names unchanged. -/
theorem lookup_set_ne : ∀ (ch : Children) (k k' : String) (e : Entry),
    k ≠ k' → (ch.set k e).lookup k' = ch.lookup k'
  | .nil, k, k', e, h => by
    simp [Children.set, Children.lookup, h]
  | .cons m e₀ rest, k, k', e, h => by
    by_cases hm : m = k
    · subst hm
      simp only [Children.set, if_pos rfl, Children.lookup, if_neg h]
    · simp only [Children.set, if_neg hm, Children.lookup]
      by_cases hm2 : m = k'
      · simp [hm2]
      · simp [hm2, lookup_set_ne rest k k' e h]

/-- Erasing one name leaves lookups of other names unchanged. -/
theorem lookup_erase_ne : ∀ (ch : Children) (k k' : String),
    k ≠ k' → (ch.erase k).lookup k' = ch.lookup k'
  | .nil, k, k', h => rfl
  | .cons m e₀ rest, k, k', h => by
    by_cases hm : m = k
    · subst hm
      simp [Children.erase, Children.lookup, if_neg h]
    · simp only [Children.erase, if_neg hm, Children.lookup]
      by_cases hm2 : m = k'
      · simp [hm2]
      · simp [hm2, lookup_erase_ne rest k k' h]

/-- Setting a name makes lookup of that name return the new entry. -/
theorem lookup_set_self : ∀ (ch : Children) (k : String) (e : Entry),
    (ch.set k e).lookup k = some e
  | .nil, k, e => by simp [Children.set, Children.lookup]
  | .cons m e₀ rest, k, e => by
    by_cases hm : m = k
    · subst hm
      simp [Children.set, Children.lookup]
    · simp [Children.set, hm, Children.lookup, lookup_set_self rest k e]

/-- A copy2 call only ever writes at the temporary name: lookups of every
other name are unchanged in the resulting state, successful or failed. -/
theorem copy2_lookup_ne (fault : Option Nat) (sE : Option Entry)
    (ch : Children) (tmp k : String) (h : tmp ≠ k) :
    ((copy2 fault sE ch tmp).state).lookup k = ch.lookup k := by
  unfold copy2
  cases sE with
  | none => rfl
  | some se =>
    cases se with
    | dir m c => rfl
    | file c m rd =>
      cases rd with
      | false => rfl
      | true =>
        cases fault with
        | none =>
          unfold writeChild
          cases hl : ch.lookup tmp with
          | none => simp [CopyResult.state, lookup_set_ne ch tmp k _ h]
          | some e₀ =>
            cases e₀ with
            | file c₂ m₂ r₂ =>
              simp [CopyResult.state, lookup_set_ne ch tmp k _ h]
            | dir m₂ c₂ => simp [CopyResult.state]
        | some kk =>
          unfold writeChild
          cases hl : ch.lookup tmp with
          | none => simp [CopyResult.state, lookup_set_ne ch tmp k _ h]
          | some e₀ =>
            cases e₀ with
            | file c₂ m₂ r₂ =>
              simp [CopyResult.state, lookup_set_ne ch tmp k _ h]
            | dir m₂ c₂ => simp [CopyResult.state]

/-- Append of child lists is associative. -/
theorem append_assoc : ∀ (a b c : Children),
    (a.append b).append c = a.append (b.append c)
  | .nil, _, _ => rfl
  | .cons n e rest, b, c => by
    simp [Children.append, append_assoc rest b c]

/-- Lookup in an append finds entries of the left list first. -/
theorem lookup_append_left : ∀ (a b : Children) (k : String) (e : Entry),
    a.lookup k = some e → (a.append b).lookup k = some e
  | .nil, b, k, e, h => by simp [Children.lookup] at h
  | .cons n e₀ rest, b, k, e, h => by
    by_cases hn : n = k
    · simp only [Children.lookup, if_pos hn] at h
      simp [Children.append, Children.lookup, hn, h]
    · simp only [Children.lookup, if_neg hn] at h
      simp [Children.append, Children.lookup, hn,
        lookup_append_left rest b k e h]

/-- Lookup in an append falls through to the right list when the left list
lacks the name. -/
theorem lookup_append_right : ∀ (a b : Children) (k : String),
    a.lookup k = none → (a.append b).lookup k = b.lookup k
  | .nil, b, k, _ => rfl
  | .cons n e₀ rest, b, k, h => by
    by_cases hn : n = k
    · simp [Children.lookup, if_pos hn] at h
    · simp only [Children.lookup, if_neg hn] at h
      simp [Children.append, Children.lookup, hn,
        lookup_append_right rest b k h]

/-- Setting an absent name appends the new entry at the end. -/
theorem set_absent_append : ∀ (ch : Children) (k : String) (e : Entry),
    ch.lookup k = none → ch.set k e = ch.append (.cons k e .nil)
  | .nil, k, e, _ => rfl
  | .cons n e₀ rest, k, e, h => by
    by_cases hn : n = k
    · simp [Children.lookup, if_pos hn] at h
    · simp only [Children.lookup, if_neg hn] at h
      simp [Children.set, hn, Children.append, set_absent_append rest k e h]

/-- Setting an absent name and erasing it again is the identity. -/
theorem erase_set_absent : ∀ (ch : Children) (k : String) (e : Entry),
    ch.lookup k = none → (ch.set k e).erase k = ch
  | .nil, k, e, _ => by simp [Children.set, Children.erase]
  | .cons n e₀ rest, k, e, h => by
    by_cases hn : n = k
    · simp [Children.lookup, if_pos hn] at h
    · simp only [Children.lookup, if_neg hn] at h
      simp [Children.set, hn, Children.erase, erase_set_absent rest k e h]

/-- Setting a name to the entry already there is the identity. -/
theorem set_self_eq : ∀ (ch : Children) (k : String) (e : Entry),
    ch.lookup k = some e → ch.set k e = ch
  | .nil, k, e, h => by simp [Children.lookup] at h
  | .cons n e₀ rest, k, e, h => by
    by_cases hn : n = k
    · simp only [Children.lookup, if_pos hn] at h
      cases h
      simp [Children.set, hn]
    · simp only [Children.lookup, if_neg hn] at h
      simp [Children.set, hn, set_self_eq rest k e h]

/-- Every with_suffix temporary name ends in ".tmp". -/
theorem endsTmp_tmpNameOf (n : String) : endsTmp (tmpNameOf n) = true := by
  simp only [endsTmp, tmpNameOf]
  exact List.isSuffixOf_iff_suffix.mpr (List.suffix_append _ _)

/-- A name that does not end in ".tmp" differs from its own temporary
name. -/
theorem tmpNameOf_ne (n : String) (h : endsTmp n = false) :
    tmpNameOf n ≠ n := by
  intro he
  rw [← he] at h
  rw [endsTmp_tmpNameOf n] at h
  exact Bool.noConfusion h

/-- A file-child name is a name. -/
theorem hasFileName_hasName : ∀ (ch : Children) (k : String),
    hasFileName ch k = true → ch.hasName k = true
  | .cons n e rest, k, h => by
    cases e with
    | file c m rd =>
      simp only [hasFileName, Bool.or_eq_true, decide_eq_true_eq] at h
      cases h with
      | inl h =>
        simp [Children.hasName, Children.lookup, h]
      | inr h =>
        by_cases hn : n = k
        · simp [Children.hasName, Children.lookup, hn]
        · simpa [Children.hasName, Children.lookup, hn] using
            hasFileName_hasName rest k h
    | dir m sub =>
      simp only [hasFileName] at h
      by_cases hn : n = k
      · simp [Children.hasName, Children.lookup, hn]
      · simpa [Children.hasName, Children.lookup, hn] using
          hasFileName_hasName rest k h

/-- A directory-child name is a name. -/
theorem hasDirName_hasName : ∀ (ch : Children) (k : String),
    hasDirName ch k = true → ch.hasName k = true
  | .cons n e rest, k, h => by
    cases e with
    | dir m sub =>
      simp only [hasDirName, Bool.or_eq_true, decide_eq_true_eq] at h
      cases h with
      | inl h =>
        simp [Children.hasName, Children.lookup, h]
      | inr h =>
        by_cases hn : n = k
        · simp [Children.hasName, Children.lookup, hn]
        · simpa [Children.hasName, Children.lookup, hn] using
            hasDirName_hasName rest k h
    | file c m rd =>
      simp only [hasDirName] at h
      by_cases hn : n = k
      · simp [Children.hasName, Children.lookup, hn]
      · simpa [Children.hasName, Children.lookup, hn] using
          hasDirName_hasName rest k h

/-- A name the file projection of a listing has is a file-child name. -/
theorem mapFiles_hasName : ∀ (ch : Children) (k : String),
    (mapFiles ch).hasName k = true → hasFileName ch k = true
  | .nil, k, h => by simp [mapFiles, Children.hasName, Children.lookup] at h
  | .cons n e rest, k, h => by
    cases e with
    | file c m rd =>
      simp only [mapFiles] at h
      by_cases hn : n = k
      · simp [hasFileName, hn]
      · simp only [Children.hasName, Children.lookup, if_neg hn] at h
        simp [hasFileName, mapFiles_hasName rest k h]
    | dir m sub =>
      simp only [mapFiles] at h
      simp [hasFileName, mapFiles_hasName rest k h]

/-- A name the mirrored-directory projection of a listing has is a
directory-child name. -/
theorem mirrorDirs_hasName : ∀ (ch : Children) (k : String),
    (mirrorDirs ch).hasName k = true → hasDirName ch k = true
  | .nil, k, h => by
    simp [mirrorDirs, Children.hasName, Children.lookup] at h
  | .cons n e rest, k, h => by
    cases e with
    | dir m sub =>
      simp only [mirrorDirs] at h
      by_cases hn : n = k
      · simp [hasDirName, hn]
      · simp only [Children.hasName, Children.lookup, if_neg hn] at h
        simp [hasDirName, mirrorDirs_hasName rest k h]
    | file c m rd =>
      simp only [mirrorDirs] at h
      simp [hasDirName, mirrorDirs_hasName rest k h]

/-- Lookup of a file child carries over to the file projection, with the
readable flag set by the copy. -/
theorem mapFiles_lookup : ∀ (ch : Children) (k : String) (c : List Nat)
    (m : Nat) (rd : Bool), ch.lookup k = some (.file c m rd) →
    (mapFiles ch).lookup k = some (.file c m true)
  | .nil, k, c, m, rd, h => by simp [Children.lookup] at h
  | .cons n e rest, k, c, m, rd, h => by
    by_cases hn : n = k
    · simp only [Children.lookup, if_pos hn] at h
      cases e with
      | file c₂ m₂ rd₂ =>
        cases h
        simp [mapFiles, Children.lookup, hn]
      | dir m₂ sub => exact absurd h (by simp)
    · simp only [Children.lookup, if_neg hn] at h
      cases e with
      | file c₂ m₂ rd₂ =>
        simp [mapFiles, Children.lookup, hn,
          mapFiles_lookup rest k c m rd h]
      | dir m₂ sub =>
        simp [mapFiles, mapFiles_lookup rest k c m rd h]

/-- Lookup of a directory child carries over to the mirrored-directory
projection. -/
theorem mirrorDirs_lookup : ∀ (ch : Children) (k : String) (m : Nat)
    (sub : Children), ch.lookup k = some (.dir m sub) →
    (mirrorDirs ch).lookup k = some (.dir 0 (mirrorCh sub))
  | .nil, k, m, sub, h => by simp [Children.lookup] at h
  | .cons n e rest, k, m, sub, h => by
    by_cases hn : n = k
    · simp only [Children.lookup, if_pos hn] at h
      cases e with
      | dir m₂ sub₂ =>
        cases h
        simp [mirrorDirs, Children.lookup, hn, mirrorCh]
      | file c₂ m₂ rd₂ => exact absurd h (by simp)
    · simp only [Children.lookup, if_neg hn] at h
      cases e with
      | dir m₂ sub₂ =>
        simp [mirrorDirs, Children.lookup, hn,
          mirrorDirs_lookup rest k m sub h]
      | file c₂ m₂ rd₂ =>
        simp [mirrorDirs, mirrorDirs_lookup rest k m sub h]

/-- The file projection has no entry at names without a file child. -/
theorem mapFiles_lookup_none : ∀ (ch : Children) (k : String),
    hasFileName ch k = false → (mapFiles ch).lookup k = none
  | .nil, _, _ => rfl
  | .cons n e rest, k, h => by
    cases e with
    | file c m rd =>
      simp only [hasFileName, Bool.or_eq_false_iff, decide_eq_false_iff_not]
        at h
      simp [mapFiles, Children.lookup, h.1,
        mapFiles_lookup_none rest k h.2]
    | dir m sub =>
      simp only [hasFileName] at h
      simp [mapFiles, mapFiles_lookup_none rest k h]

/-- The mirrored-directory projection has no entry at names without a
directory child. -/
theorem mirrorDirs_lookup_none : ∀ (ch : Children) (k : String),
    hasDirName ch k = false → (mirrorDirs ch).lookup k = none
  | .nil, _, _ => rfl
  | .cons n e rest, k, h => by
    cases e with
    | dir m sub =>
      simp only [hasDirName, Bool.or_eq_false_iff, decide_eq_false_iff_not]
        at h
      simp [mirrorDirs, Children.lookup, h.1,
        mirrorDirs_lookup_none rest k h.2]
    | file c m rd =>
      simp only [hasDirName] at h
      simp [mirrorDirs, mirrorDirs_lookup_none rest k h]

/-- In a well-formed listing a directory child's name has no file child. -/
theorem wf_dir_not_file : ∀ (ch : Children) (k : String) (m : Nat)
    (sub : Children), wfCh ch = true → ch.lookup k = some (.dir m sub) →
    hasFileName ch k = false
  | .nil, k, m, sub, _, h => by simp [Children.lookup] at h
  | .cons n e rest, k, m, sub, hwf, h => by
    simp only [wfCh, Bool.and_eq_true, Bool.not_eq_true'] at hwf
    by_cases hn : n = k
    · simp only [Children.lookup, if_pos hn] at h
      cases e with
      | dir m₂ sub₂ =>
        simp only [hasFileName]
        rw [Bool.eq_false_iff]
        intro hf
        have := hasFileName_hasName rest k hf
        rw [hn] at hwf
        rw [this] at hwf
        exact Bool.noConfusion hwf.1.1
      | file c₂ m₂ rd₂ => exact absurd h (by simp)
    · simp only [Children.lookup, if_neg hn] at h
      cases e with
      | dir m₂ sub₂ =>
        simp [hasFileName, wf_dir_not_file rest k m sub hwf.2 h]
      | file c₂ m₂ rd₂ =>
        simp [hasFileName, hn, wf_dir_not_file rest k m sub hwf.2 h]

/-- Lookup of a directory child in a well-formed listing carries over to
the whole mirror. -/
theorem mirrorCh_lookup_dir (ch : Children) (k : String) (m : Nat)
    (sub : Children) (hwf : wfCh ch = true)
    (h : ch.lookup k = some (.dir m sub)) :
    (mirrorCh ch).lookup k = some (.dir 0 (mirrorCh sub)) := by
  unfold mirrorCh
  rw [lookup_append_right _ _ _
    (mapFiles_lookup_none ch k (wf_dir_not_file ch k m sub hwf h))]
  exact mirrorDirs_lookup ch k m sub h

/-- Lookup of a file child carries over to the whole mirror. -/
theorem mirrorCh_lookup_file (ch : Children) (k : String) (c : List Nat)
    (m : Nat) (rd : Bool) (h : ch.lookup k = some (.file c m rd)) :
    (mirrorCh ch).lookup k = some (.file c m true) :=
  lookup_append_left _ _ _ _ (mapFiles_lookup ch k c m rd h)

/-- Appending the empty listing is the identity. -/
theorem append_nil : ∀ (a : Children), a.append .nil = a
  | .nil => rfl
  | .cons n e rest => by simp [Children.append, append_nil rest]

/-- Setting a name absent from the left part of an append updates the right
part. -/
theorem set_append_right : ∀ (a b : Children) (k : String) (e : Entry),
    a.lookup k = none → (a.append b).set k e = a.append (b.set k e)
  | .nil, b, k, e, _ => rfl
  | .cons n e₀ rest, b, k, e, h => by
    by_cases hn : n = k
    · simp [Children.lookup, if_pos hn] at h
    · simp only [Children.lookup, if_neg hn] at h
      simp [Children.append, Children.set, hn, set_append_right rest b k e h]

/-- The head name of a listing is present. -/
theorem hasName_head (n : String) (e : Entry) (rest : Children) :
    (Children.cons n e rest).hasName n = true := by
  simp [Children.hasName, Children.lookup]

/-- A name present in the tail is present in the listing. -/
theorem hasName_tail (n k : String) (e : Entry) (rest : Children)
    (h : rest.hasName k = true) :
    (Children.cons n e rest).hasName k = true := by
  by_cases hn : n = k
  · simp [Children.hasName, Children.lookup, hn]
  · simpa [Children.hasName, Children.lookup, hn] using h

/-- A name found by lookup is present. -/
theorem lookup_hasName (ch : Children) (k : String) (e : Entry)
    (h : ch.lookup k = some e) : ch.hasName k = true := by
  simp [Children.hasName, h]

/-- An absent name is absent from both halves of an append, and
conversely. -/
theorem lookup_append_none (a b : Children) (k : String)
    (ha : a.lookup k = none) (hb : b.lookup k = none) :
    (a.append b).lookup k = none := by
  rw [lookup_append_right a b k ha]
  exact hb

/-- An absent name has no file child. -/
theorem not_hasName_not_hasFileName (ch : Children) (k : String)
    (h : ch.hasName k = false) : hasFileName ch k = false := by
  rw [Bool.eq_false_iff]
  intro hf
  rw [hasFileName_hasName ch k hf] at h
  exact Bool.noConfusion h

/-- An absent name has no directory child. -/
theorem not_hasName_not_hasDirName (ch : Children) (k : String)
    (h : ch.hasName k = false) : hasDirName ch k = false := by
  rw [Bool.eq_false_iff]
  intro hf
  rw [hasDirName_hasName ch k hf] at h
  exact Bool.noConfusion h

/-- The created-directory listing resolves every directory-child name to a
fresh empty directory. -/
theorem emptyDirsTop_lookup : ∀ (ch : Children) (k : String),
    hasDirName ch k = true →
    (emptyDirsTop ch).lookup k = some (.dir 0 .nil)
  | .cons n e rest, k, h => by
    cases e with
    | file c m rd =>
      simp only [hasDirName] at h
      simpa [emptyDirsTop] using emptyDirsTop_lookup rest k h
    | dir m sub =>
      by_cases hn : n = k
      · simp [emptyDirsTop, Children.lookup, hn]
      · simp only [hasDirName, Bool.or_eq_true, decide_eq_true_eq] at h
        rcases h with h | h
        · exact absurd h hn
        · simpa [emptyDirsTop, Children.lookup, hn] using
            emptyDirsTop_lookup rest k h

/-- Deep file count splits into the top-level count and the
strictly-below count. -/
theorem countFiles_split : ∀ (ch : Children),
    countFiles ch = countFilesTop ch + countFilesBelow ch
  | .nil => rfl
  | .cons n e rest => by
    cases e with
    | file c m rd =>
      simp only [countFiles, countFilesTop, countFilesBelow]
      have := countFiles_split rest
      omega
    | dir m sub =>
      simp only [countFiles, countFilesTop, countFilesBelow]
      have := countFiles_split rest
      omega

/-- Deep directory count splits into the top-level count and the
strictly-below count. -/
theorem countDirs_split : ∀ (ch : Children),
    countDirs ch = countDirsTop ch + countDirsBelow ch
  | .nil => rfl
  | .cons n e rest => by
    cases e with
    | file c m rd =>
      simp only [countDirs, countDirsTop, countDirsBelow]
      have := countDirs_split rest
      omega
    | dir m sub =>
      simp only [countDirs, countDirsTop, countDirsBelow]
      have := countDirs_split rest
      omega

/-- A well-formed directory child is itself well-formed. -/
theorem wf_lookup : ∀ (ch : Children) (k : String) (e : Entry),
    wfCh ch = true → ch.lookup k = some e → wfE e = true
  | .cons n e₀ rest, k, e, hwf, h => by
    simp only [wfCh, Bool.and_eq_true] at hwf
    by_cases hn : n = k
    · simp only [Children.lookup, if_pos hn] at h
      cases h
      exact hwf.1.2
    · simp only [Children.lookup, if_neg hn] at h
      exact wf_lookup rest k e hwf.2 h

/-- The file loop's removal count depends only on snapshot and source: it
is blind to the removal-fault oracle, the path and the actual directory
state. -/
theorem cleanFiles_count : ∀ (snap : Children) (rf : List String → Bool)
    (relp : List String) (sOpt : Option Entry) (ac : Children),
    (cleanFiles rf relp sOpt snap ac).1 = orphanFilesHere sOpt snap
  | .nil, _, _, _, _ => rfl
  | .cons n e rest, rf, relp, sOpt, ac => by
    cases e with
    | dir m sub => exact cleanFiles_count rest rf relp sOpt ac
    | file c m rd =>
      simp only [cleanFiles, orphanFilesHere]
      by_cases hs : (childOf sOpt n).isSome = true
      · simp only [hs, if_true]
        exact cleanFiles_count rest rf relp sOpt ac
      · simp only [Bool.not_eq_true] at hs
        simp only [hs, Bool.false_eq_true, if_false]
        rw [← cleanFiles_count rest rf relp sOpt
          (if rf (relp ++ [n]) then ac else ac.erase n)]

/-- The directory loop's removal count depends only on snapshot and
source. -/
theorem cleanDirs_count : ∀ (snap : Children) (rf : List String → Bool)
    (relp : List String) (sOpt : Option Entry) (ac : Children),
    (cleanDirs rf relp sOpt snap ac).1 = orphanDirsHere sOpt snap
  | .nil, _, _, _, _ => rfl
  | .cons n e rest, rf, relp, sOpt, ac => by
    cases e with
    | file c m rd => exact cleanDirs_count rest rf relp sOpt ac
    | dir m sub =>
      simp only [cleanDirs, orphanDirsHere]
      by_cases hs : (childOf sOpt n).isSome = true
      · simp only [hs, if_true]
        exact cleanDirs_count rest rf relp sOpt ac
      · simp only [Bool.not_eq_true] at hs
        simp only [hs, Bool.false_eq_true, if_false]
        rw [← cleanDirs_count rest rf relp sOpt
          (if rf (relp ++ [n]) then ac else ac.erase n)]

/-- The cleanup recursion's removal counts depend only on snapshot and
source. -/
theorem cleanSubdirs_count : ∀ (snap : Children) (rf : List String → Bool)
    (relp : List String) (sOpt : Option Entry) (ac : Children),
    ((cleanSubdirs rf relp sOpt snap ac).1,
      (cleanSubdirs rf relp sOpt snap ac).2.1) = orphanCounts sOpt snap
  | .nil, _, _, _, _ => rfl
  | .cons n e rest, rf, relp, sOpt, ac => by
    cases e with
    | file c m rd => exact cleanSubdirs_count rest rf relp sOpt ac
    | dir m sub =>
      have hA := cleanSubdirs_count sub rf (relp ++ [n]) (childOf sOpt n) sub
      have hR : ∀ ac₀ : Children, _ :=
        fun ac₀ => cleanSubdirs_count rest rf relp sOpt ac₀
      rw [cleanSubdirs.eq_def, orphanCounts.eq_def]
      rcases h₁ : cleanSubdirs rf (relp ++ [n]) (childOf sOpt n) sub sub
        with ⟨frA, drA, sub₁⟩
      rw [h₁] at hA
      rcases h₂ : cleanFiles rf (relp ++ [n]) (childOf sOpt n) sub sub₁
        with ⟨frB, sub₂⟩
      have hB := cleanFiles_count sub rf (relp ++ [n]) (childOf sOpt n) sub₁
      rw [h₂] at hB
      rcases h₃ : cleanDirs rf (relp ++ [n]) (childOf sOpt n) sub sub₂
        with ⟨drB, sub₃⟩
      have hC := cleanDirs_count sub rf (relp ++ [n]) (childOf sOpt n) sub₂
      rw [h₃] at hC
      rcases h₄ : cleanSubdirs rf relp sOpt rest (ac.set n (.dir m sub₃))
        with ⟨frR, drR, out⟩
      have hR2 := hR (ac.set n (.dir m sub₃))
      rw [h₄] at hR2
      simp only [h₁, h₂, h₃, h₄]
      have hA1 := congrArg Prod.fst hA
      have hA2 := congrArg Prod.snd hA
      have hR1 := congrArg Prod.fst hR2
      have hR4 := congrArg Prod.snd hR2
      simp only [] at hA1 hA2 hR1 hR4
      simp only [Prod.mk.injEq]
      refine ⟨by omega, by omega⟩

/-- C1 counterexample: a source tree with files "a.tmp" and "a.txt" in one
directory (in that listing order) and an empty replica.  The reconciliation
pass completes, yet afterwards the source file "a.tmp" has no replica
counterpart at all: copying "a.txt" reuses the temporary path "a.tmp" and
os.replace moves the freshly copied replica "a.tmp" away.  This refutes the
claim that after one pass every source file has a byte-identical mirrored
replica file. -/
theorem C1_convergence_cex :
    (runPass cf0 rf0
        (.dir 0 (.cons "a.tmp" (.file [1] 0 true)
          (.cons "a.txt" (.file [2] 0 true) .nil)))
        (.dir 5 .nil)).map
      (fun x => (existsAt x.2 ["a.tmp"], (x.1).errors)) = some (false, 0) ∧
    contentAt
      (.dir 0 (.cons "a.tmp" (.file [1] 0 true)
        (.cons "a.txt" (.file [2] 0 true) .nil))) ["a.tmp"] = some [1] := by
  exact ⟨rfl, rfl⟩

/-- C2 counterexample: with the same source tree, the second reconciliation
pass run on the first pass's output still reports files_copied = 1 (the
lost "a.tmp" is copied again, and lost again), refuting the claim that the
second run yields all-zero counters. -/
theorem C2_idempotence_cex :
    ((runPass cf0 rf0
        (.dir 0 (.cons "a.tmp" (.file [1] 0 true)
          (.cons "a.txt" (.file [2] 0 true) .nil)))
        (.dir 5 .nil)).bind
      (fun x => runPass cf0 rf0
        (.dir 0 (.cons "a.tmp" (.file [1] 0 true)
          (.cons "a.txt" (.file [2] 0 true) .nil))) x.2)).map
      (fun y => (y.1).files_copied) = some 1 := by
  exact rfl

/-- C3 counterexample: two files of equal size whose modification times are
both 1.5 s — their integer-truncated modification times are equal (1 = 1),
so the claimed decision procedure returns false, but the code compares
int(source mtime) with the raw replica mtime (1 ≠ 1.5), falls through to
hashing, and returns true. -/
theorem C3_change_detection_cex :
    are_files_different
      (some (.file [1] (3 * nsPerSec / 2) true))
      (some (.file [2] (3 * nsPerSec / 2) true)) = true ∧
    needs_copy_claim
      (.file [1] (3 * nsPerSec / 2) true)
      (some (.file [2] (3 * nsPerSec / 2) true)) = false := by
  exact ⟨by decide, by decide⟩

/-- C3 amended: the change decision the code implements, for every source
and replica entry.  It differs from the claim only in the fast path — the
truncation applies to the source modification time alone, compared with the
replica's raw modification time — and in comparing the Option-valued hash
results (a failed hash is None).  In particular a replica file whose size
equals the source's and whose modification time equals the whole-second
truncation of the source's modification time is never re-copied, as
needs_copy_amended then returns false. -/
theorem C3_change_detection_amended (se : Entry) (rE : Option Entry) :
    are_files_different (some se) rE = needs_copy_amended se rE := by
  cases rE with
  | none => rfl
  | some re => rfl

/-- C4 counterexample: source and replica files of equal size, modification
times missing the fast path, and both unreadable.  Hashing fails on both
sides, calculate_file_hash returns None twice, None is not unequal to None,
so the files are silently treated as identical: the pass completes with
errors = 0 and no copy, refuting the claim that a hashing failure
increments the errors count and is reported rather than treated as
"same". -/
theorem C4_hash_failure_cex :
    (runPass cf0 rf0
        (.dir 0 (.cons "u" (.file [1] 1 false) .nil))
        (.dir 5 (.cons "u" (.file [2] 7 false) .nil))).map
      (fun x => ((x.1).errors, (x.1).files_copied, contentAt x.2 ["u"])) =
      some (0, 0, some [2]) ∧
    calculate_file_hash
      ((Entry.dir 0 (.cons "u" (.file [1] 1 false) .nil)).find? ["u"]) =
      none := by
  exact ⟨rfl, rfl⟩

/-- C4 amended: a hash failure is not reported to the caller as an error
condition; calculate_file_hash returns None and are_files_different treats
the file as different exactly when the two Option results differ, so a
double-sided failure is silently "same" (the counterexample) while a
one-sided failure is "different".  When the source file is unreadable and
its replica counterpart is readable, with equal sizes and no mtime fast
path, the file is therefore judged different, the copy then fails reading
the source, and the iteration completes with errors = 1, the file not
copied and the replica unchanged — an error count that arises from the
failed copy, not from the hash failure itself. -/
theorem C4_hash_failure_amended (n : String) (cs cr : List Nat)
    (ms mr msrc md : Nat) (hsz : cs.length = cr.length)
    (hft : ms / nsPerSec * nsPerSec ≠ mr) :
    runPass cf0 rf0
      (.dir msrc (.cons n (.file cs ms false) .nil))
      (.dir md (.cons n (.file cr mr true) .nil)) =
      some (⟨0, 0, 0, 0, 1⟩, .dir md (.cons n (.file cr mr true) .nil)) := by
  simp [runPass, sync_source_to_replica, dirOrMake, syncFiles,
    are_files_different, statOf, calculate_file_hash, copy_file, copy2,
    syncMkdirs, syncSubdirs, clean_replica, cleanSubdirs, cleanFiles,
    cleanDirs, Children.lookup, childOf, hsz, hft]

/-- C4 amended, witness at a concrete input. -/
theorem C4_hash_failure_amended_wit :
    ([1, 2].length = [3, 4].length ∧ 1 / nsPerSec * nsPerSec ≠ 9) ∧
    runPass cf0 rf0
      (.dir 0 (.cons "u" (.file [1, 2] 1 false) .nil))
      (.dir 5 (.cons "u" (.file [3, 4] 9 true) .nil)) =
      some (⟨0, 0, 0, 0, 1⟩, .dir 5 (.cons "u" (.file [3, 4] 9 true) .nil)) :=
  ⟨⟨by decide, by decide⟩,
    C4_hash_failure_amended "u" [1, 2] [3, 4] 1 9 0 5 (by decide) (by decide)⟩

/-- C5 (code bug): the constructor calls validate_paths before the logger
attribute is assigned, so with the source root present and the replica root
absent, the replica-missing branch dereferences the unset logger and raises
AttributeError instead of creating the replica and succeeding — against the
claim and the method's own docstring.  A missing source root does fail
fatally as claimed, and setup succeeds when all three paths exist. -/
theorem C5_validate_paths_attr_error :
    fileSyncInit true false true = .attrError ∧
    fileSyncInit true true false = .attrError ∧
    (∀ re le, fileSyncInit false re le = .fatalSourceMissing) ∧
    fileSyncInit true true true = .ok := by
  exact ⟨rfl, rfl, fun re le => rfl, rfl⟩

/-- C6 counterexample: the destination name "a.tmp" already ends in ".tmp",
so with_suffix maps it to itself and shutil.copy2 writes directly onto the
final destination path.  A copy fault (disk full after 0 bytes) then leaves
the destination truncated: copy_file reports failure but the old content
[9] at the destination is destroyed, refuting the claim that any failed
copy leaves the destination as it was. -/
theorem C6_copy_failure_cex :
    (copy_file (some 0) (some (.file [1, 2, 3] 5 true))
        (.cons "a.tmp" (.file [9] 0 true) .nil) "a.tmp").1 = false ∧
    childContent (copy_file (some 0) (some (.file [1, 2, 3] 5 true))
        (.cons "a.tmp" (.file [9] 0 true) .nil) "a.tmp").2 "a.tmp" =
      some [] ∧
    childContent (.cons "a.tmp" (.file [9] 0 true) .nil) "a.tmp" =
      some [9] := by
  exact ⟨by decide, by decide, by decide⟩

/-- C6 amended: whenever the temporary name differs from the destination
name — that is, unless the destination's own name already ends in ".tmp",
in which case with_suffix returns it unchanged — a failed copy_file leaves
the entry at the final destination exactly as it was: the failure can only
have touched the sibling temporary path. -/
theorem C6_copy_failure_amended (fault : Option Nat) (sE : Option Entry)
    (ch : Children) (dstName : String)
    (hne : tmpNameOf dstName ≠ dstName)
    (hfail : (copy_file fault sE ch dstName).1 = false) :
    (copy_file fault sE ch dstName).2.lookup dstName = ch.lookup dstName := by
  have hcp := copy2_lookup_ne fault sE ch (tmpNameOf dstName) dstName hne
  unfold copy_file at hfail ⊢
  cases hres : copy2 fault sE ch (tmpNameOf dstName) with
  | fail ch₂ =>
    rw [hres] at hcp
    simp only [hres]
    simpa [CopyResult.state] using hcp
  | ok ch₂ =>
    rw [hres] at hcp
    cases hro : osReplace ch₂ (tmpNameOf dstName) dstName with
    | none =>
      simp only [hres, hro]
      simpa [CopyResult.state] using hcp
    | some ch₃ => simp [hres, hro] at hfail

/-- C6 amended, witness at a concrete input. -/
theorem C6_copy_failure_amended_wit :
    (tmpNameOf "b.txt" ≠ "b.txt" ∧
      (copy_file none none
        (.cons "b.txt" (.file [7] 3 true) .nil) "b.txt").1 = false) ∧
    (copy_file none none
        (.cons "b.txt" (.file [7] 3 true) .nil) "b.txt").2.lookup "b.txt" =
      (Children.cons "b.txt" (.file [7] 3 true) .nil).lookup "b.txt" :=
  ⟨⟨by decide, by decide⟩,
    C6_copy_failure_amended none none
      (.cons "b.txt" (.file [7] 3 true) .nil) "b.txt" (by decide) (by decide)⟩

/-- C7 counterexample: the source has a subdirectory "d" where the replica
has a file "d".  The os.makedirs call of the forward pass (line 169 of the
script, outside any try block) raises FileExistsError, the exception
escapes the pass, and no stats record is produced — refuting the claim
that no per-directory fault can propagate out of the reconciliation
pass. -/
theorem C7_no_escape_cex :
    sync_source_to_replica cf0
      (.dir 0 (.cons "d" (.dir 0 .nil) .nil))
      (.dir 0 (.cons "d" (.file [] 0 true) .nil)) = none ∧
    runPass cf0 rf0
      (.dir 0 (.cons "d" (.dir 0 .nil) .nil))
      (.dir 0 (.cons "d" (.file [] 0 true) .nil)) = none := by
  exact ⟨rfl, rfl⟩

/-- C8 counterexample: the replica holds an orphan file "b" whose removal
fails (injected PermissionError).  The pass continues and completes, but
the iteration's errors tally is not incremented — clean_replica keeps no
error count at all — and files_removed is incremented to 1 even though "b"
is still present afterwards.  This refutes the claim that a failed removal
increments the errors tally. -/
theorem C8_removal_failure_cex :
    (runPass cf0 (fun p => decide (p = ["b"]))
        (.dir 0 .nil)
        (.dir 0 (.cons "b" (.file [1] 0 true) .nil))).map
      (fun x => (x.1, existsAt x.2 ["b"])) =
      some (⟨0, 1, 0, 0, 0⟩, true) := by
  exact rfl

/-- C8 amended: a failed removal is logged and the pass continues with
sibling items, but the errors tally is not incremented — the iteration's
statistics are entirely independent of the removal-fault oracle, because
clean_replica keeps no error count and increments files_removed and
dirs_removed for every orphan whether or not its removal succeeded (the
counterexample shows a failed removal still counted, with the entry
persisting). -/
theorem C8_removal_failure_amended (cf : List String → Option Nat)
    (rf rf' : List String → Bool) (src rep : Entry) :
    (runPass cf rf src rep).map Prod.fst =
      (runPass cf rf' src rep).map Prod.fst := by
  unfold runPass
  cases hf : sync_source_to_replica cf src rep with
  | none => rfl
  | some t =>
    rcases t with ⟨fc, dc, er, rep₁⟩
    cases rep₁ with
    | file c m rd => rfl
    | dir m ch =>
      simp only [clean_replica]
      rcases h₁ : cleanSubdirs rf [] (some src) ch ch with ⟨frA, drA, ch₁⟩
      rcases h₂ : cleanFiles rf [] (some src) ch ch₁ with ⟨frB, ch₂⟩
      rcases h₃ : cleanDirs rf [] (some src) ch ch₂ with ⟨drB, ch₃⟩
      rcases h₁b : cleanSubdirs rf' [] (some src) ch ch with ⟨frA2, drA2, ch₁b⟩
      rcases h₂b : cleanFiles rf' [] (some src) ch ch₁b with ⟨frB2, ch₂b⟩
      rcases h₃b : cleanDirs rf' [] (some src) ch ch₂b with ⟨drB2, ch₃b⟩
      have e₁ := cleanSubdirs_count ch rf [] (some src) ch
      rw [h₁] at e₁
      have e₁b := cleanSubdirs_count ch rf' [] (some src) ch
      rw [h₁b] at e₁b
      have e₂ := cleanFiles_count ch rf [] (some src) ch₁
      rw [h₂] at e₂
      have e₂b := cleanFiles_count ch rf' [] (some src) ch₁b
      rw [h₂b] at e₂b
      have e₃ := cleanDirs_count ch rf [] (some src) ch₂
      rw [h₃] at e₃
      have e₃b := cleanDirs_count ch rf' [] (some src) ch₂b
      rw [h₃b] at e₃b
      have g₁ := congrArg Prod.fst (e₁.trans e₁b.symm)
      have g₂ := congrArg Prod.snd (e₁.trans e₁b.symm)
      simp only [] at g₁ g₂ e₂ e₂b e₃ e₃b
      simp only [h₁, h₂, h₃, h₁b, h₂b, h₃b]
      have hfr : frA + frB = frA2 + frB2 := by omega
      have hdr : drA + drB = drA2 + drB2 := by omega
      simp [hfr, hdr]

/-- The cleanup file loop never touches a name whose source counterpart
exists. -/
theorem cleanFiles_preserve : ∀ (snap : Children) (rf : List String → Bool)
    (relp : List String) (sOpt : Option Entry) (ac : Children) (k : String),
    (childOf sOpt k).isSome = true →
    (cleanFiles rf relp sOpt snap ac).2.lookup k = ac.lookup k
  | .nil, _, _, _, _, _, _ => rfl
  | .cons n e rest, rf, relp, sOpt, ac, k, hk => by
    cases e with
    | dir m sub => exact cleanFiles_preserve rest rf relp sOpt ac k hk
    | file c m rd =>
      simp only [cleanFiles]
      by_cases hs : (childOf sOpt n).isSome = true
      · simp only [hs, if_true]
        exact cleanFiles_preserve rest rf relp sOpt ac k hk
      · have hnk : n ≠ k := fun he => hs (he ▸ hk)
        simp only [Bool.not_eq_true] at hs
        simp only [hs, Bool.false_eq_true, if_false]
        rcases h₂ : cleanFiles rf relp sOpt rest
            (if rf (relp ++ [n]) then ac else ac.erase n) with ⟨fr, ac₃⟩
        have := cleanFiles_preserve rest rf relp sOpt
          (if rf (relp ++ [n]) then ac else ac.erase n) k hk
        rw [h₂] at this
        simp only [h₂]
        simp only [] at this
        rw [this]
        by_cases hrf : rf (relp ++ [n])
        · simp [hrf]
        · simp [hrf, lookup_erase_ne ac n k hnk]

/-- The cleanup directory loop never touches a name whose source
counterpart exists. -/
theorem cleanDirs_preserve : ∀ (snap : Children) (rf : List String → Bool)
    (relp : List String) (sOpt : Option Entry) (ac : Children) (k : String),
    (childOf sOpt k).isSome = true →
    (cleanDirs rf relp sOpt snap ac).2.lookup k = ac.lookup k
  | .nil, _, _, _, _, _, _ => rfl
  | .cons n e rest, rf, relp, sOpt, ac, k, hk => by
    cases e with
    | file c m rd => exact cleanDirs_preserve rest rf relp sOpt ac k hk
    | dir m sub =>
      simp only [cleanDirs]
      by_cases hs : (childOf sOpt n).isSome = true
      · simp only [hs, if_true]
        exact cleanDirs_preserve rest rf relp sOpt ac k hk
      · have hnk : n ≠ k := fun he => hs (he ▸ hk)
        simp only [Bool.not_eq_true] at hs
        simp only [hs, Bool.false_eq_true, if_false]
        rcases h₂ : cleanDirs rf relp sOpt rest
            (if rf (relp ++ [n]) then ac else ac.erase n) with ⟨dr, ac₃⟩
        have := cleanDirs_preserve rest rf relp sOpt
          (if rf (relp ++ [n]) then ac else ac.erase n) k hk
        rw [h₂] at this
        simp only [h₂]
        simp only [] at this
        rw [this]
        by_cases hrf : rf (relp ++ [n])
        · simp [hrf]
        · simp [hrf, lookup_erase_ne ac n k hnk]

/-- The cleanup recursion preserves the file-or-directory shape at every
name of the visited directory, provided every snapshot directory name holds
a directory in the actual listing (true when the walk starts, since
snapshot and actual coincide). -/
theorem cleanSubdirs_shape : ∀ (snap : Children) (rf : List String → Bool)
    (relp : List String) (sOpt : Option Entry) (ac : Children),
    (∀ j, hasDirName snap j = true →
      (ac.lookup j).map Entry.isDir = some true) →
    ∀ k, ((cleanSubdirs rf relp sOpt snap ac).2.2.lookup k).map Entry.isDir =
      (ac.lookup k).map Entry.isDir
  | .nil, _, _, _, _, _, _ => rfl
  | .cons n e rest, rf, relp, sOpt, ac, hal, k => by
    cases e with
    | file c m rd =>
      exact cleanSubdirs_shape rest rf relp sOpt ac
        (fun j hj => hal j (by simpa [hasDirName] using hj)) k
    | dir m sub =>
      rw [cleanSubdirs.eq_def]
      rcases h₁ : cleanSubdirs rf (relp ++ [n]) (childOf sOpt n) sub sub
        with ⟨frA, drA, sub₁⟩
      rcases h₂ : cleanFiles rf (relp ++ [n]) (childOf sOpt n) sub sub₁
        with ⟨frB, sub₂⟩
      rcases h₃ : cleanDirs rf (relp ++ [n]) (childOf sOpt n) sub sub₂
        with ⟨drB, sub₃⟩
      rcases h₄ : cleanSubdirs rf relp sOpt rest (ac.set n (.dir m sub₃))
        with ⟨frR, drR, out⟩
      simp only [h₁, h₂, h₃, h₄]
      have hrec := cleanSubdirs_shape rest rf relp sOpt
        (ac.set n (.dir m sub₃)) (fun j hj => by
          by_cases hj2 : n = j
          · rw [← hj2, lookup_set_self]
            rfl
          · rw [lookup_set_ne ac n j _ hj2]
            exact hal j (by simp [hasDirName, hj])) k
      rw [h₄] at hrec
      simp only [] at hrec
      rw [hrec]
      by_cases hk : n = k
      · rw [← hk, lookup_set_self]
        have := hal n (by simp [hasDirName])
        rw [this]
        rfl
      · rw [lookup_set_ne ac n k _ hk]

/-- In a well-formed listing a directory-child name resolves to a
directory. -/
theorem wf_hasDirName_lookup : ∀ (ch : Children) (j : String),
    wfCh ch = true → hasDirName ch j = true →
    (ch.lookup j).map Entry.isDir = some true
  | .cons n e rest, j, hwf, hj => by
    simp only [wfCh, Bool.and_eq_true, Bool.not_eq_true'] at hwf
    cases e with
    | dir m sub =>
      by_cases hn : n = j
      · simp [Children.lookup, hn, Entry.isDir]
      · simp only [hasDirName, Bool.or_eq_true, decide_eq_true_eq] at hj
        rcases hj with hj | hj
        · exact absurd hj hn
        · simp only [Children.lookup, if_neg hn]
          exact wf_hasDirName_lookup rest j hwf.2 hj
    | file c m rd =>
      simp only [hasDirName] at hj
      by_cases hn : n = j
      · exfalso
        have := hasDirName_hasName rest j hj
        rw [hn] at hwf
        rw [this] at hwf
        exact Bool.noConfusion hwf.1.1
      · simp only [Children.lookup, if_neg hn]
        exact wf_hasDirName_lookup rest j hwf.2 hj

/-- In a well-formed listing, a directory-child name has no file child
(hasDirName form). -/
theorem wf_hasDirName_not_hasFileName (ch : Children) (k : String)
    (hwf : wfCh ch = true) (h : hasDirName ch k = true) :
    hasFileName ch k = false := by
  have := wf_hasDirName_lookup ch k hwf h
  rcases ho : ch.lookup k with _ | e
  · rw [ho] at this
    exact absurd this (by simp)
  · rw [ho] at this
    cases e with
    | file c m rd => exact absurd (Option.some.inj this) (by simp [Entry.isDir])
    | dir m sub => exact wf_dir_not_file ch k m sub hwf ho

/-- C9 amended: a path whose type differs between source and replica is not
removed and recreated — the cleanup pass removes only entries whose source
path does not exist, so every replica entry whose source counterpart exists,
of either type, survives the pass in place with its type unchanged (and, per
the counterexample, a replica directory shadowing a source file persists
while the copy onto it fails and is counted as an error each iteration). -/
theorem C9_type_change_amended (rf : List String → Bool) (src : Entry)
    (m : Nat) (ch : Children) (n : String) (e : Entry)
    (hwf : wfCh ch = true)
    (hsrc : (childOf (some src) n).isSome = true)
    (hrep : ch.lookup n = some e) :
    ∃ e', ((clean_replica rf src (.dir m ch)).2.2).find? [n] = some e' ∧
      e'.isDir = e.isDir := by
  simp only [clean_replica]
  rcases h₁ : cleanSubdirs rf [] (some src) ch ch with ⟨frA, drA, ch₁⟩
  rcases h₂ : cleanFiles rf [] (some src) ch ch₁ with ⟨frB, ch₂⟩
  rcases h₃ : cleanDirs rf [] (some src) ch ch₂ with ⟨drB, ch₃⟩
  have s₁ := cleanSubdirs_shape ch rf [] (some src) ch
    (fun j hj => wf_hasDirName_lookup ch j hwf hj) n
  rw [h₁] at s₁
  have s₂ : (ch₁.lookup n).map Entry.isDir = (ch.lookup n).map Entry.isDir :=
    s₁
  have p₂ := cleanFiles_preserve ch rf [] (some src) ch₁ n hsrc
  rw [h₂] at p₂
  have p₂b : ch₂.lookup n = ch₁.lookup n := p₂
  have p₃ := cleanDirs_preserve ch rf [] (some src) ch₂ n hsrc
  rw [h₃] at p₃
  have p₃b : ch₃.lookup n = ch₂.lookup n := p₃
  have hshape : (ch₃.lookup n).map Entry.isDir = some e.isDir := by
    rw [p₃b, p₂b, s₂, hrep]
    rfl
  rcases ho : ch₃.lookup n with _ | e₂
  · rw [ho] at hshape
    exact absurd hshape (by simp)
  · rw [ho] at hshape
    refine ⟨e₂, ?_, ?_⟩
    · show (Entry.dir m ch₃).find? [n] = some e₂
      simp [Entry.find?, ho]
    · exact Option.some.inj hshape

/-- C9 amended, witness at a concrete input. -/
theorem C9_type_change_amended_wit :
    (wfCh (.cons "x" (.dir 7 .nil) .nil) = true ∧
      (childOf (some (.dir 0 (.cons "x" (.file [1] 0 true) .nil)))
        "x").isSome = true ∧
      Children.lookup (.cons "x" (.dir 7 .nil) .nil) "x" =
        some (.dir 7 .nil)) ∧
    (∃ e', ((clean_replica rf0 (.dir 0 (.cons "x" (.file [1] 0 true) .nil))
        (.dir 0 (.cons "x" (.dir 7 .nil) .nil))).2.2).find? ["x"] =
        some e' ∧ e'.isDir = (Entry.dir 7 .nil).isDir) :=
  ⟨⟨by decide, by decide, by rfl⟩,
    C9_type_change_amended rf0 (.dir 0 (.cons "x" (.file [1] 0 true) .nil))
      0 (.cons "x" (.dir 7 .nil) .nil) "x" (.dir 7 .nil)
      (by decide) (by decide) (by rfl)⟩

/-- C9 counterexample: the source has a file "x" (one byte) where the
replica has a directory "x".  After a full reconciliation pass the replica
entry is still a directory, no file content ever lands at "x", and the
iteration records one error (os.replace onto a directory fails): the
type-mismatched entry is not removed and recreated, because clean_replica
only tests existence of the source path, which succeeds.  The leftover
temporary file "x.tmp" is removed as an orphan by the same pass. -/
theorem C9_type_change_cex :
    (runPass cf0 rf0
        (.dir 0 (.cons "x" (.file [1] 0 true) .nil))
        (.dir 0 (.cons "x" (.dir 7 .nil) .nil))).map
      (fun x => (isDirAt x.2 ["x"], contentAt x.2 ["x"], (x.1).errors,
        existsAt x.2 ["x.tmp"])) = some (true, none, 1, false) ∧
    contentAt (.dir 0 (.cons "x" (.file [1] 0 true) .nil)) ["x"] =
      some [1] := by
  exact ⟨rfl, rfl⟩

/-- In a name formed by appending ".tmp" to any characters, the appended
dot is the last dot. -/
theorem lastDotFrom_append_tmp : ∀ (xs : List Char) (k : Nat),
    lastDotFrom (xs ++ ".tmp".data) k = some (k + xs.length)
  | [], k => by simp [lastDotFrom]
  | c :: xs, k => by
    show lastDotFrom (c :: (xs ++ ".tmp".data)) k = _
    simp only [lastDotFrom, lastDotFrom_append_tmp xs (k + 1)]
    congr 1
    simp
    omega

/-- Appending ".tmp" to a nonempty stem gives a name whose pathlib stem is
that stem again: with_suffix of such a name is the name itself. -/
theorem stemChars_append_tmp (xs : List Char) (hne : xs ≠ []) :
    stemChars (xs ++ ".tmp".data) = xs := by
  unfold stemChars
  rw [lastDotFrom_append_tmp xs 0]
  have hlen : 0 < xs.length := List.length_pos.mpr hne
  have hcond : 0 < 0 + xs.length ∧ 0 + xs.length + 1 <
      (xs ++ ".tmp".data).length := by
    constructor
    · omega
    · rw [List.length_append]
      show 0 + xs.length + 1 < xs.length + 4
      omega
  show (if 0 < 0 + xs.length ∧ 0 + xs.length + 1 <
      (xs ++ ".tmp".data).length then
    (xs ++ ".tmp".data).take (0 + xs.length) else xs ++ ".tmp".data) = xs
  rw [if_pos hcond]
  simp only [Nat.zero_add]
  exact List.take_left xs _

/-- C10 counterexample: for the file name ".tmp" — which does end in
".tmp" — pathlib treats the whole name as the stem (the dot is the first
character), so with_suffix appends rather than replaces: the temporary
path is ".tmp.tmp", not the destination itself, refuting the claim's
universal statement about names already ending in ".tmp". -/
theorem C10_with_suffix_cex :
    endsTmp ".tmp" = true ∧ tmpNameOf ".tmp" ≠ ".tmp" ∧
    tmpNameOf ".tmp" = ".tmp.tmp" := by
  exact ⟨by decide, by decide, by decide⟩

/-- C10 amended: copy_file derives its temporary name by replacing the
destination name's final pathlib suffix with ".tmp", so any two names with
the same stem share one temporary name, and copying one such file can
overwrite and then remove the other's replica (third conjunct: with the
replica of "a.tmp" present, a successful copy to "a.txt" leaves only
"a.txt" — the "a.tmp" entry was overwritten and renamed away).  A name
already ending in ".tmp" maps to itself provided the final ".tmp" does not
start the whole name (pathlib gives a leading dot no suffix role; the
counterexample name ".tmp" instead maps to ".tmp.tmp"). -/
theorem C10_with_suffix_amended :
    (∀ n₁ n₂ : String, stemChars n₁.data = stemChars n₂.data →
      tmpNameOf n₁ = tmpNameOf n₂) ∧
    (∀ cs : List Char, cs ≠ [] →
      tmpNameOf ⟨cs ++ ".tmp".data⟩ = ⟨cs ++ ".tmp".data⟩) ∧
    (∀ (c₁ c₉ : List Nat) (m₁ m₉ : Nat),
      copy_file none (some (.file c₁ m₁ true))
        (.cons "a.tmp" (.file c₉ m₉ true) .nil) "a.txt" =
        (true, .cons "a.txt" (.file c₁ m₁ true) .nil)) := by
  refine ⟨fun n₁ n₂ h => by simp [tmpNameOf, h], fun cs hne => ?_, ?_⟩
  · show String.mk (stemChars (cs ++ ".tmp".data) ++ ".tmp".data) = _
    rw [stemChars_append_tmp cs hne]
  · intro c₁ c₉ m₁ m₉
    have ht : tmpNameOf "a.txt" = "a.tmp" := by decide
    simp [copy_file, ht, copy2, writeChild, osReplace, Children.lookup,
      Children.set, Children.erase]

/-- C10 amended, witness at a concrete input. -/
theorem C10_with_suffix_amended_wit :
    (['a'] ≠ ([] : List Char)) ∧
    tmpNameOf ⟨['a'] ++ ".tmp".data⟩ = ⟨['a'] ++ ".tmp".data⟩ :=
  ⟨by decide, C10_with_suffix_amended.2.1 ['a'] (by decide)⟩

/-- A fault-free copy of a readable source file to a fresh destination
(no entry at the destination or temporary name) succeeds and appends
exactly the copied file: the temporary file is written and then renamed
away. -/
theorem copy_file_clean (c : List Nat) (m : Nat) (n : String)
    (acc : Children) (hnt : endsTmp n = false)
    (hn : acc.lookup n = none) (ht : acc.lookup (tmpNameOf n) = none) :
    copy_file none (some (.file c m true)) acc n =
      (true, acc.set n (.file c m true)) := by
  have htn : tmpNameOf n ≠ n := tmpNameOf_ne n hnt
  show (match copy2 none (some (.file c m true)) acc (tmpNameOf n) with
    | .fail ch₂ => (false, ch₂)
    | .ok ch₂ =>
      match osReplace ch₂ (tmpNameOf n) n with
      | none => (false, ch₂)
      | some ch₃ => (true, ch₃)) = (true, acc.set n (.file c m true))
  have hcp : copy2 none (some (.file c m true)) acc (tmpNameOf n) =
      .ok (acc.set (tmpNameOf n) (.file c m true)) := by
    simp [copy2, writeChild, ht]
  rw [hcp]
  have hor : osReplace (acc.set (tmpNameOf n) (.file c m true))
      (tmpNameOf n) n = some (acc.set n (.file c m true)) := by
    simp only [osReplace, lookup_set_self, if_neg htn,
      lookup_set_ne acc (tmpNameOf n) n _ htn, hn,
      erase_set_absent acc (tmpNameOf n) _ ht]
  show (match osReplace (acc.set (tmpNameOf n) (.file c m true))
      (tmpNameOf n) n with
    | none => (false, acc.set (tmpNameOf n) (.file c m true))
    | some ch₃ => (true, ch₃)) = (true, acc.set n (.file c m true))
  rw [hor]

/-- The fault-free forward file loop over a well-formed, readable source
listing with no ".tmp" names, into a replica directory holding none of the
listing's names and no ".tmp"-suffixed names, copies exactly the files, in
order, with no errors. -/
theorem syncFiles_fresh : ∀ (sch : Children) (relp : List String)
    (acc : Children), wfCh sch = true → noTmpCh sch = true →
    readableCh sch = true →
    (∀ k, sch.hasName k = true → acc.lookup k = none) →
    (∀ k, endsTmp k = true → acc.lookup k = none) →
    syncFiles cf0 relp sch acc =
      (countFilesTop sch, 0, acc.append (mapFiles sch))
  | .nil, relp, acc, _, _, _, _, _ => by
    simp [syncFiles, countFilesTop, mapFiles, append_nil]
  | .cons n e rest, relp, acc, hwf, hnt, hrd, hfresh, htmp => by
    simp only [wfCh, Bool.and_eq_true, Bool.not_eq_true'] at hwf
    simp only [noTmpCh, Bool.and_eq_true, Bool.not_eq_true'] at hnt
    simp only [readableCh, Bool.and_eq_true] at hrd
    cases e with
    | dir m sub =>
      simp only [syncFiles, countFilesTop, mapFiles]
      exact syncFiles_fresh rest relp acc hwf.2 hnt.2 hrd.2
        (fun k hk => hfresh k (hasName_tail n k _ rest hk)) htmp
    | file c m rd =>
      have hrdt : rd = true := hrd.1
      subst hrdt
      have hn : acc.lookup n = none := hfresh n (hasName_head n _ rest)
      have hdiff : are_files_different (some (.file c m true))
          (acc.lookup n) = true := by
        rw [hn]
        rfl
      have hcopy := copy_file_clean c m n acc hnt.1.1 hn
        (htmp (tmpNameOf n) (endsTmp_tmpNameOf n))
      simp only [syncFiles, cf0, hdiff, if_true, hcopy]
      have hrec := syncFiles_fresh rest relp (acc.set n (.file c m true))
        hwf.2 hnt.2 hrd.2
        (fun k hk => by
          have hkn : n ≠ k := by
            intro he
            rw [he] at hwf
            rw [hk] at hwf
            exact Bool.noConfusion hwf.1.1
          rw [lookup_set_ne acc n k _ hkn]
          exact hfresh k (hasName_tail n k _ rest hk))
        (fun k hk => by
          have hkn : n ≠ k := by
            intro he
            rw [← he] at hk
            rw [hk] at hnt
            exact Bool.noConfusion hnt.1.1
          rw [lookup_set_ne acc n k _ hkn]
          exact htmp k hk)
      rw [hrec]
      have hset : acc.set n (.file c m true) =
          acc.append (.cons n (.file c m true) .nil) :=
        set_absent_append acc n _ hn
      simp only [countFilesTop, mapFiles, hset,
        append_assoc acc (.cons n (.file c m true) .nil) (mapFiles rest)]
      rfl

/-- The forward directory loop over a well-formed source listing whose
directory names are absent from the replica directory creates exactly the
empty mirrored directories, in order. -/
theorem syncMkdirs_fresh : ∀ (sch : Children) (acc : Children),
    wfCh sch = true →
    (∀ k, hasDirName sch k = true → acc.lookup k = none) →
    syncMkdirs sch acc = (countDirsTop sch, acc.append (emptyDirsTop sch))
  | .nil, acc, _, _ => by
    simp [syncMkdirs, countDirsTop, emptyDirsTop, append_nil]
  | .cons n e rest, acc, hwf, hfresh => by
    simp only [wfCh, Bool.and_eq_true, Bool.not_eq_true'] at hwf
    cases e with
    | file c m rd =>
      simp only [syncMkdirs, countDirsTop, emptyDirsTop]
      exact syncMkdirs_fresh rest acc hwf.2
        (fun k hk => hfresh k (by simp [hasDirName, hk]))
    | dir m sub =>
      have hn : acc.lookup n = none := hfresh n (by simp [hasDirName])
      have hhn : acc.hasName n = false := by
        simp [Children.hasName, hn]
      simp only [syncMkdirs, hhn, Bool.false_eq_true, if_false]
      have hrec := syncMkdirs_fresh rest (acc.set n (.dir 0 .nil)) hwf.2
        (fun k hk => by
          have hkn : n ≠ k := by
            intro he
            rw [he] at hwf
            rw [hasDirName_hasName rest k hk] at hwf
            exact Bool.noConfusion hwf.1.1
          rw [lookup_set_ne acc n k _ hkn]
          exact hfresh k (by simp [hasDirName, hk]))
      rw [hrec]
      have hset : acc.set n (.dir 0 .nil) =
          acc.append (.cons n (.dir 0 .nil) .nil) :=
        set_absent_append acc n _ hn
      simp only [countDirsTop, emptyDirsTop, hset,
        append_assoc acc (.cons n (.dir 0 .nil) .nil) (emptyDirsTop rest)]
      rfl

/-- Filling freshly created empty directories with the mirrors of their
subtrees turns the created listing into the mirrored-directory listing. -/
theorem fillDirs_mirror : ∀ (sch : Children) (a : Children),
    wfCh sch = true →
    (∀ k, hasDirName sch k = true → a.lookup k = none) →
    fillDirs sch (a.append (emptyDirsTop sch)) = a.append (mirrorDirs sch)
  | .nil, a, _, _ => rfl
  | .cons n e rest, a, hwf, hfresh => by
    simp only [wfCh, Bool.and_eq_true, Bool.not_eq_true'] at hwf
    cases e with
    | file c m rd =>
      simp only [fillDirs, emptyDirsTop, mirrorDirs]
      exact fillDirs_mirror rest a hwf.2
        (fun k hk => hfresh k (by simp [hasDirName, hk]))
    | dir m sub =>
      have hn : a.lookup n = none := hfresh n (by simp [hasDirName])
      simp only [fillDirs, emptyDirsTop, mirrorDirs]
      rw [set_append_right a _ n _ hn]
      have hsethead : (Children.cons n (.dir 0 .nil) (emptyDirsTop rest)).set
          n (.dir 0 (mirrorCh sub)) =
          .cons n (.dir 0 (mirrorCh sub)) (emptyDirsTop rest) := by
        simp [Children.set]
      rw [hsethead]
      have hsplit : a.append
          (.cons n (.dir 0 (mirrorCh sub)) (emptyDirsTop rest)) =
          (a.append (.cons n (.dir 0 (mirrorCh sub)) .nil)).append
            (emptyDirsTop rest) := by
        rw [append_assoc]
        rfl
      rw [hsplit]
      have hrec := fillDirs_mirror rest
        (a.append (.cons n (.dir 0 (mirrorCh sub)) .nil)) hwf.2
        (fun k hk => by
          have hkn : n ≠ k := by
            intro he
            rw [he] at hwf
            rw [hasDirName_hasName rest k hk] at hwf
            exact Bool.noConfusion hwf.1.1
          refine lookup_append_none _ _ k
            (hfresh k (by simp [hasDirName, hk])) ?_
          simp [Children.lookup, hkn])
      rw [hrec, append_assoc]
      rfl

/-- The fault-free forward recursion over a well-formed, readable source
listing with no ".tmp" names, with every mirrored directory freshly created
and empty, copies every file and creates every directory below the top
level and turns each created directory into the mirror of its source
subtree. -/
theorem syncSubdirs_fill : ∀ (sch : Children) (relp : List String)
    (acc : Children), wfCh sch = true → noTmpCh sch = true →
    readableCh sch = true →
    (∀ k, hasDirName sch k = true → acc.lookup k = some (.dir 0 .nil)) →
    syncSubdirs cf0 relp sch acc =
      some (countFilesBelow sch, countDirsBelow sch, 0, fillDirs sch acc)
  | .nil, relp, acc, _, _, _, _ => rfl
  | .cons n e rest, relp, acc, hwf, hnt, hrd, hpre => by
    simp only [wfCh, Bool.and_eq_true, Bool.not_eq_true'] at hwf
    simp only [noTmpCh, Bool.and_eq_true, Bool.not_eq_true'] at hnt
    simp only [readableCh, Bool.and_eq_true] at hrd
    cases e with
    | file c m rd =>
      show syncSubdirs cf0 relp rest acc = _
      rw [syncSubdirs_fill rest relp acc hwf.2 hnt.2 hrd.2
        (fun k hk => hpre k (by simp [hasDirName, hk]))]
      rfl
    | dir m sub =>
      have hwfs : wfCh sub = true := hwf.1.2
      have hnts : noTmpCh sub = true := hnt.1.2
      have hrds : readableCh sub = true := hrd.1
      have hn : acc.lookup n = some (.dir 0 .nil) :=
        hpre n (by simp [hasDirName])
      have h0 : dirOrMake (acc.lookup n) = some (0, .nil) := by
        rw [hn]
        rfl
      have hmfn : ∀ k, hasDirName sub k = true →
          (mapFiles sub).lookup k = none := fun k hk =>
        mapFiles_lookup_none sub k
          (wf_hasDirName_not_hasFileName sub k hwfs hk)
      have h1 := syncFiles_fresh sub (relp ++ [n]) .nil hwfs hnts hrds
        (fun k _ => rfl) (fun k _ => rfl)
      have h1b : syncFiles cf0 (relp ++ [n]) sub .nil =
          (countFilesTop sub, 0, mapFiles sub) := h1
      have h2 := syncMkdirs_fresh sub (mapFiles sub) hwfs hmfn
      have h3 := syncSubdirs_fill sub (relp ++ [n])
        ((mapFiles sub).append (emptyDirsTop sub)) hwfs hnts hrds
        (fun k hk => by
          rw [lookup_append_right _ _ k (hmfn k hk)]
          exact emptyDirsTop_lookup sub k hk)
      have hfill := fillDirs_mirror sub (mapFiles sub) hwfs hmfn
      rw [hfill] at h3
      have hmc : (mapFiles sub).append (mirrorDirs sub) = mirrorCh sub := rfl
      rw [hmc] at h3
      have h4 := syncSubdirs_fill rest relp
        (acc.set n (.dir 0 (mirrorCh sub))) hwf.2 hnt.2 hrd.2
        (fun k hk => by
          have hkn : n ≠ k := by
            intro he
            rw [he] at hwf
            rw [hasDirName_hasName rest k hk] at hwf
            exact Bool.noConfusion hwf.1.1
          rw [lookup_set_ne acc n k _ hkn]
          exact hpre k (by simp [hasDirName, hk]))
      rw [syncSubdirs.eq_def]
      simp only [h0, h1b, h2, h3, h4, cf0]
      have hf := countFiles_split sub
      have hd := countDirs_split sub
      simp only [countFilesBelow, countDirsBelow, fillDirs]
      rw [hf, hd]

/-- The fault-free forward pass over a well-formed, readable source tree
with no ".tmp" names, starting from an empty replica root, copies every
file, creates every directory, reports no errors and produces exactly the
mirror of the source tree. -/
theorem sync_forward_empty (sch : Children) (ms md : Nat)
    (hwf : wfCh sch = true) (hnt : noTmpCh sch = true)
    (hrd : readableCh sch = true) :
    sync_source_to_replica cf0 (.dir ms sch) (.dir md .nil) =
      some (countFiles sch, countDirs sch, 0, .dir md (mirrorCh sch)) := by
  have hmfn : ∀ k, hasDirName sch k = true →
      (mapFiles sch).lookup k = none := fun k hk =>
    mapFiles_lookup_none sch k (wf_hasDirName_not_hasFileName sch k hwf hk)
  have h1 := syncFiles_fresh sch [] .nil hwf hnt hrd
    (fun k _ => rfl) (fun k _ => rfl)
  have h1b : syncFiles cf0 [] sch .nil =
      (countFilesTop sch, 0, mapFiles sch) := h1
  have h2 := syncMkdirs_fresh sch (mapFiles sch) hwf hmfn
  have h3 := syncSubdirs_fill sch []
    ((mapFiles sch).append (emptyDirsTop sch)) hwf hnt hrd
    (fun k hk => by
      rw [lookup_append_right _ _ k (hmfn k hk)]
      exact emptyDirsTop_lookup sch k hk)
  have hfill := fillDirs_mirror sch (mapFiles sch) hwf hmfn
  rw [hfill] at h3
  rw [show (mapFiles sch).append (mirrorDirs sch) = mirrorCh sch from rfl]
    at h3
  show (match dirOrMake (some (Entry.dir md Children.nil)) with
    | none => none
    | some (md₂, r0) =>
      match syncFiles cf0 [] sch r0 with
      | (fc₁, er₁, r1) =>
        match syncMkdirs sch r1 with
        | (dc₁, r2) =>
          match syncSubdirs cf0 [] sch r2 with
          | none => none
          | some (fc₂, dc₂, er₂, r3) =>
            some (fc₁ + fc₂, dc₁ + dc₂, er₁ + er₂, Entry.dir md₂ r3)) = _
  have h0 : dirOrMake (some (Entry.dir md Children.nil)) =
      some (md, Children.nil) := rfl
  simp only [h0, h1b, h2, h3]
  have hf := countFiles_split sch
  have hd := countDirs_split sch
  rw [hf, hd]

/-- File-child presence distributes over append. -/
theorem hasFileName_append : ∀ (a b : Children) (k : String),
    hasFileName (a.append b) k = (hasFileName a k || hasFileName b k)
  | .nil, b, k => rfl
  | .cons n e rest, b, k => by
    cases e with
    | file c m rd =>
      simp [Children.append, hasFileName, hasFileName_append rest b k,
        Bool.or_assoc]
    | dir m sub =>
      simp [Children.append, hasFileName, hasFileName_append rest b k]

/-- Directory-child presence distributes over append. -/
theorem hasDirName_append : ∀ (a b : Children) (k : String),
    hasDirName (a.append b) k = (hasDirName a k || hasDirName b k)
  | .nil, b, k => rfl
  | .cons n e rest, b, k => by
    cases e with
    | dir m sub =>
      simp [Children.append, hasDirName, hasDirName_append rest b k,
        Bool.or_assoc]
    | file c m rd =>
      simp [Children.append, hasDirName, hasDirName_append rest b k]

/-- A file child of the file projection is a file child of the source
listing. -/
theorem mapFiles_hasFileName : ∀ (ch : Children) (k : String),
    hasFileName (mapFiles ch) k = true → hasFileName ch k = true
  | .cons n e rest, k, h => by
    cases e with
    | file c m rd =>
      simp only [mapFiles, hasFileName, Bool.or_eq_true] at h ⊢
      rcases h with h | h
      · exact Or.inl h
      · exact Or.inr (mapFiles_hasFileName rest k h)
    | dir m sub =>
      simp only [mapFiles] at h
      simp only [hasFileName]
      exact mapFiles_hasFileName rest k h

/-- The mirrored-directory projection has no file children. -/
theorem mirrorDirs_hasFileName : ∀ (ch : Children) (k : String),
    hasFileName (mirrorDirs ch) k = false
  | .nil, _ => rfl
  | .cons n e rest, k => by
    cases e with
    | file c m rd =>
      simp only [mirrorDirs]
      exact mirrorDirs_hasFileName rest k
    | dir m sub =>
      simp only [mirrorDirs, hasFileName]
      exact mirrorDirs_hasFileName rest k

/-- The file projection has no directory children. -/
theorem mapFiles_hasDirName : ∀ (ch : Children) (k : String),
    hasDirName (mapFiles ch) k = false
  | .nil, _ => rfl
  | .cons n e rest, k => by
    cases e with
    | file c m rd =>
      simp only [mapFiles, hasDirName]
      exact mapFiles_hasDirName rest k
    | dir m sub =>
      simp only [mapFiles]
      exact mapFiles_hasDirName rest k

/-- A directory child of the mirrored-directory projection is a directory
child of the source listing. -/
theorem mirrorDirs_hasDirName : ∀ (ch : Children) (k : String),
    hasDirName (mirrorDirs ch) k = true → hasDirName ch k = true
  | .cons n e rest, k, h => by
    cases e with
    | dir m sub =>
      simp only [mirrorDirs, hasDirName, Bool.or_eq_true] at h ⊢
      rcases h with h | h
      · exact Or.inl h
      · exact Or.inr (mirrorDirs_hasDirName rest k h)
    | file c m rd =>
      simp only [mirrorDirs] at h
      simp only [hasDirName]
      exact mirrorDirs_hasDirName rest k h

/-- A cleanup file loop removes nothing when every file child of the
snapshot has an existing source counterpart. -/
theorem cleanFiles_present : ∀ (snap : Children) (rf : List String → Bool)
    (relp : List String) (s : Option Entry) (ac : Children),
    (∀ k, hasFileName snap k = true → (childOf s k).isSome = true) →
    cleanFiles rf relp s snap ac = (0, ac)
  | .nil, _, _, _, _, _ => rfl
  | .cons n e rest, rf, relp, s, ac, hp => by
    cases e with
    | dir m sub =>
      simp only [cleanFiles]
      exact cleanFiles_present rest rf relp s ac
        (fun k hk => hp k (by simp [hasFileName, hk]))
    | file c m rd =>
      have hn : (childOf s n).isSome = true := hp n (by simp [hasFileName])
      simp only [cleanFiles, hn, if_true]
      exact cleanFiles_present rest rf relp s ac
        (fun k hk => hp k (by simp [hasFileName, hk]))

/-- A cleanup directory loop removes nothing when every directory child of
the snapshot has an existing source counterpart. -/
theorem cleanDirs_present : ∀ (snap : Children) (rf : List String → Bool)
    (relp : List String) (s : Option Entry) (ac : Children),
    (∀ k, hasDirName snap k = true → (childOf s k).isSome = true) →
    cleanDirs rf relp s snap ac = (0, ac)
  | .nil, _, _, _, _, _ => rfl
  | .cons n e rest, rf, relp, s, ac, hp => by
    cases e with
    | file c m rd =>
      simp only [cleanDirs]
      exact cleanDirs_present rest rf relp s ac
        (fun k hk => hp k (by simp [hasDirName, hk]))
    | dir m sub =>
      have hn : (childOf s n).isSome = true := hp n (by simp [hasDirName])
      simp only [cleanDirs, hn, if_true]
      exact cleanDirs_present rest rf relp s ac
        (fun k hk => hp k (by simp [hasDirName, hk]))

/-- The cleanup recursion ignores a files-only prefix of the snapshot. -/
theorem cleanSubdirs_filesPrefix : ∀ (x y : Children)
    (rf : List String → Bool) (relp : List String) (s : Option Entry)
    (ac : Children),
    cleanSubdirs rf relp s ((mapFiles x).append y) ac =
      cleanSubdirs rf relp s y ac
  | .nil, _, _, _, _, _ => rfl
  | .cons n e rest, y, rf, relp, s, ac => by
    cases e with
    | file c m rd =>
      show cleanSubdirs rf relp s
        (.cons n (.file c m true) ((mapFiles rest).append y)) ac = _
      exact cleanSubdirs_filesPrefix rest y rf relp s ac
    | dir m sub => exact cleanSubdirs_filesPrefix rest y rf relp s ac

/-- Source agreement transfers along a change of source entry that
preserves the children the listing names. -/
theorem SrcAgrees_mono : ∀ (part : Children) (s₁ s₂ : Option Entry),
    (∀ k, part.hasName k = true → childOf s₁ k = childOf s₂ k) →
    SrcAgrees s₂ part → SrcAgrees s₁ part
  | .nil, _, _, _, _ => trivial
  | .cons n e rest, s₁, s₂, htr, hsa => by
    refine ⟨?_, SrcAgrees_mono rest s₁ s₂
      (fun k hk => htr k (hasName_tail n k e rest hk)) hsa.2⟩
    have hn := htr n (hasName_head n e rest)
    cases e with
    | file c m rd =>
      rw [hn]
      exact hsa.1
    | dir m sub =>
      rw [hn]
      exact hsa.1

/-- A well-formed directory agrees with its own listing. -/
theorem SrcAgrees_self : ∀ (sub : Children) (m₂ : Nat),
    wfCh sub = true → SrcAgrees (some (.dir m₂ sub)) sub
  | .nil, _, _ => trivial
  | .cons n e rest, m₂, hwf => by
    simp only [wfCh, Bool.and_eq_true, Bool.not_eq_true'] at hwf
    have hme : childOf (some (.dir m₂ (.cons n e rest))) n = some e := by
      simp [childOf, Children.lookup]
    refine ⟨?_, ?_⟩
    · cases e with
      | file c m rd => simp [hme]
      | dir m sub₂ => exact ⟨m, hme⟩
    · refine SrcAgrees_mono rest (some (.dir m₂ (.cons n e rest)))
        (some (.dir m₂ rest)) ?_
        (SrcAgrees_self rest m₂ hwf.2)
      intro k hk
      have hkn : n ≠ k := by
        intro he
        rw [he] at hwf
        rw [hk] at hwf
        exact Bool.noConfusion hwf.1.1
      simp [childOf, Children.lookup, hkn]

/-- The cleanup recursion over the mirrored-directory listing of a
well-formed source listing removes nothing and leaves the replica
unchanged, when the actual directory agrees with the snapshot. -/
theorem cleanSubdirs_mirror : ∀ (sch : Children) (rf : List String → Bool)
    (relp : List String) (s : Option Entry) (ac : Children),
    wfCh sch = true → SrcAgrees s sch →
    (∀ k e, (mirrorDirs sch).lookup k = some e → ac.lookup k = some e) →
    cleanSubdirs rf relp s (mirrorDirs sch) ac = (0, 0, ac)
  | .nil, _, _, _, _, _, _, _ => rfl
  | .cons n e rest, rf, relp, s, ac, hwf, hsa, hal => by
    simp only [wfCh, Bool.and_eq_true, Bool.not_eq_true'] at hwf
    cases e with
    | file c m rd =>
      show cleanSubdirs rf relp s (mirrorDirs rest) ac = _
      exact cleanSubdirs_mirror rest rf relp s ac hwf.2 hsa.2 hal
    | dir m sub =>
      have hwfs : wfCh sub = true := hwf.1.2
      obtain ⟨m₂, hs⟩ := hsa.1
      show (match cleanSubdirs rf (relp ++ [n]) (childOf s n)
          (mirrorCh sub) (mirrorCh sub) with
        | (frA, drA, sub₁) =>
          match cleanFiles rf (relp ++ [n]) (childOf s n)
              (mirrorCh sub) sub₁ with
          | (frB, sub₂) =>
            match cleanDirs rf (relp ++ [n]) (childOf s n)
                (mirrorCh sub) sub₂ with
            | (drB, sub₃) =>
              match cleanSubdirs rf relp s (mirrorDirs rest)
                  (ac.set n (.dir 0 sub₃)) with
              | (frR, drR, out) =>
                (frA + frB + frR, drA + drB + drR, out)) = (0, 0, ac)
      have hmfn : ∀ k, hasDirName sub k = true →
          (mapFiles sub).lookup k = none := fun k hk =>
        mapFiles_lookup_none sub k
          (wf_hasDirName_not_hasFileName sub k hwfs hk)
      have hin1 : cleanSubdirs rf (relp ++ [n]) (childOf s n)
          (mirrorCh sub) (mirrorCh sub) = (0, 0, mirrorCh sub) := by
        rw [show mirrorCh sub = (mapFiles sub).append (mirrorDirs sub)
          from rfl]
        rw [cleanSubdirs_filesPrefix]
        refine cleanSubdirs_mirror sub rf (relp ++ [n]) (childOf s n)
          ((mapFiles sub).append (mirrorDirs sub)) hwfs ?_ ?_
        · rw [hs]
          exact SrcAgrees_self sub m₂ hwfs
        · intro k e hk
          rw [lookup_append_right _ _ k]
          · exact hk
          · refine hmfn k ?_
            have h1 := lookup_hasName (mirrorDirs sub) k e hk
            exact mirrorDirs_hasName sub k h1
      have hin2 : cleanFiles rf (relp ++ [n]) (childOf s n)
          (mirrorCh sub) (mirrorCh sub) = (0, mirrorCh sub) := by
        refine cleanFiles_present _ rf _ _ _ ?_
        intro k hk
        rw [show mirrorCh sub = (mapFiles sub).append (mirrorDirs sub)
          from rfl] at hk
        rw [hasFileName_append, Bool.or_eq_true] at hk
        rcases hk with hk | hk
        · have := mapFiles_hasFileName sub k hk
          rw [hs]
          show (sub.lookup k).isSome = true
          simpa [Children.hasName] using hasFileName_hasName sub k this
        · rw [mirrorDirs_hasFileName sub k] at hk
          exact Bool.noConfusion hk
      have hin3 : cleanDirs rf (relp ++ [n]) (childOf s n)
          (mirrorCh sub) (mirrorCh sub) = (0, mirrorCh sub) := by
        refine cleanDirs_present _ rf _ _ _ ?_
        intro k hk
        rw [show mirrorCh sub = (mapFiles sub).append (mirrorDirs sub)
          from rfl] at hk
        rw [hasDirName_append, Bool.or_eq_true] at hk
        rcases hk with hk | hk
        · rw [mapFiles_hasDirName sub k] at hk
          exact Bool.noConfusion hk
        · have := mirrorDirs_hasDirName sub k hk
          rw [hs]
          show (sub.lookup k).isSome = true
          simpa [Children.hasName] using hasDirName_hasName sub k this
      have hset : ac.set n (.dir 0 (mirrorCh sub)) = ac := by
        refine set_self_eq ac n _ ?_
        refine hal n _ ?_
        simp [mirrorDirs, Children.lookup, mirrorCh]
      have hrest : cleanSubdirs rf relp s (mirrorDirs rest) ac =
          (0, 0, ac) := by
        refine cleanSubdirs_mirror rest rf relp s ac hwf.2 hsa.2 ?_
        intro k e hk
        have hkn : n ≠ k := by
          intro he
          have h1 := lookup_hasName (mirrorDirs rest) k e hk
          have h2 := mirrorDirs_hasName rest k h1
          have h3 := hasDirName_hasName rest k h2
          rw [he] at hwf
          rw [h3] at hwf
          exact Bool.noConfusion hwf.1.1
        refine hal k e ?_
        simpa [mirrorDirs, Children.lookup, hkn] using hk
      simp only [hin1, hin2, hin3, hset, hrest]

/-- One cleanup pass over the exact mirror of a well-formed source tree
removes nothing: every replica path has a source counterpart. -/
theorem clean_mirror (sch : Children) (rf : List String → Bool)
    (ms md : Nat) (hwf : wfCh sch = true) :
    clean_replica rf (.dir ms sch) (.dir md (mirrorCh sch)) =
      (0, 0, .dir md (mirrorCh sch)) := by
  have hmfn : ∀ k, hasDirName sch k = true →
      (mapFiles sch).lookup k = none := fun k hk =>
    mapFiles_lookup_none sch k (wf_hasDirName_not_hasFileName sch k hwf hk)
  have h1 : cleanSubdirs rf [] (some (.dir ms sch)) (mirrorCh sch)
      (mirrorCh sch) = (0, 0, mirrorCh sch) := by
    rw [show mirrorCh sch = (mapFiles sch).append (mirrorDirs sch)
      from rfl]
    rw [cleanSubdirs_filesPrefix]
    refine cleanSubdirs_mirror sch rf [] (some (.dir ms sch))
      ((mapFiles sch).append (mirrorDirs sch)) hwf
      (SrcAgrees_self sch ms hwf) ?_
    intro k e hk
    rw [lookup_append_right _ _ k]
    · exact hk
    · refine hmfn k ?_
      have h1 := lookup_hasName (mirrorDirs sch) k e hk
      exact mirrorDirs_hasName sch k h1
  have h2 : cleanFiles rf [] (some (.dir ms sch)) (mirrorCh sch)
      (mirrorCh sch) = (0, mirrorCh sch) := by
    refine cleanFiles_present _ rf _ _ _ ?_
    intro k hk
    rw [show mirrorCh sch = (mapFiles sch).append (mirrorDirs sch)
      from rfl] at hk
    rw [hasFileName_append, Bool.or_eq_true] at hk
    rcases hk with hk | hk
    · have := mapFiles_hasFileName sch k hk
      show (sch.lookup k).isSome = true
      simpa [Children.hasName] using hasFileName_hasName sch k this
    · rw [mirrorDirs_hasFileName sch k] at hk
      exact Bool.noConfusion hk
  have h3 : cleanDirs rf [] (some (.dir ms sch)) (mirrorCh sch)
      (mirrorCh sch) = (0, mirrorCh sch) := by
    refine cleanDirs_present _ rf _ _ _ ?_
    intro k hk
    rw [show mirrorCh sch = (mapFiles sch).append (mirrorDirs sch)
      from rfl] at hk
    rw [hasDirName_append, Bool.or_eq_true] at hk
    rcases hk with hk | hk
    · rw [mapFiles_hasDirName sch k] at hk
      exact Bool.noConfusion hk
    · have := mirrorDirs_hasDirName sch k hk
      show (sch.lookup k).isSome = true
      simpa [Children.hasName] using hasDirName_hasName sch k this
  show (match cleanSubdirs rf [] (some (.dir ms sch)) (mirrorCh sch)
      (mirrorCh sch) with
    | (frA, drA, ch₁) =>
      match cleanFiles rf [] (some (.dir ms sch)) (mirrorCh sch) ch₁ with
      | (frB, ch₂) =>
        match cleanDirs rf [] (some (.dir ms sch)) (mirrorCh sch) ch₂ with
        | (drB, ch₃) =>
          ((frA + frB : Nat), (drA + drB : Nat), Entry.dir md ch₃)) = _
  simp only [h1, h2, h3]

/-- One fault-free reconciliation pass from an empty replica root: the
forward pass produces the mirror and the cleanup pass removes nothing. -/
theorem runPass_empty (sch : Children) (ms md : Nat)
    (hwf : wfCh sch = true) (hnt : noTmpCh sch = true)
    (hrd : readableCh sch = true) :
    runPass cf0 rf0 (.dir ms sch) (.dir md .nil) =
      some (⟨countFiles sch, 0, countDirs sch, 0, 0⟩,
        .dir md (mirrorCh sch)) := by
  unfold runPass
  rw [sync_forward_empty sch ms md hwf hnt hrd]
  simp only [clean_mirror sch rf0 ms md hwf]

/-- Stepping a path observation through one directory level. -/
theorem contentAt_cons (x : Nat) (ch : Children) (n : String)
    (rest : List String) :
    contentAt (.dir x ch) (n :: rest) =
      (match ch.lookup n with
       | some e => contentAt e rest
       | none => none) := by
  cases ho : ch.lookup n with
  | none => simp [contentAt, Entry.find?, ho]
  | some e => simp [contentAt, Entry.find?, ho]

/-- Stepping an existence observation through one directory level. -/
theorem existsAt_cons (x : Nat) (ch : Children) (n : String)
    (rest : List String) :
    existsAt (.dir x ch) (n :: rest) =
      (match ch.lookup n with
       | some e => existsAt e rest
       | none => false) := by
  cases ho : ch.lookup n with
  | none => simp [existsAt, Entry.find?, ho]
  | some e => simp [existsAt, Entry.find?, ho]

/-- Content observations ignore the readable flag of a file entry. -/
theorem contentAt_file (c : List Nat) (m : Nat) (rd rd' : Bool)
    (p : List String) :
    contentAt (.file c m rd) p = contentAt (.file c m rd') p := by
  cases p with
  | nil => rfl
  | cons a b => rfl

/-- Existence observations ignore the readable flag of a file entry. -/
theorem existsAt_file (c : List Nat) (m : Nat) (rd rd' : Bool)
    (p : List String) :
    existsAt (.file c m rd) p = existsAt (.file c m rd') p := by
  cases p with
  | nil => rfl
  | cons a b => rfl

/-- The mirror of a well-formed source listing has exactly the source's
file contents at every path. -/
theorem mirror_contentAt : ∀ (p : List String) (sch : Children)
    (x y : Nat), wfCh sch = true →
    contentAt (.dir x (mirrorCh sch)) p = contentAt (.dir y sch) p
  | [], sch, x, y, _ => rfl
  | n :: rest, sch, x, y, hwf => by
    rw [contentAt_cons, contentAt_cons]
    cases ho : sch.lookup n with
    | none =>
      have hh : sch.hasName n = false := by simp [Children.hasName, ho]
      have hm : (mirrorCh sch).lookup n = none :=
        lookup_append_none _ _ n
          (mapFiles_lookup_none sch n (not_hasName_not_hasFileName sch n hh))
          (mirrorDirs_lookup_none sch n (not_hasName_not_hasDirName sch n hh))
      rw [hm]
    | some e =>
      cases e with
      | file c m rd =>
        rw [mirrorCh_lookup_file sch n c m rd ho]
        exact contentAt_file c m true rd rest
      | dir m₂ sub =>
        rw [mirrorCh_lookup_dir sch n m₂ sub hwf ho]
        have hwfs : wfCh sub = true := wf_lookup sch n _ hwf ho
        exact mirror_contentAt rest sub 0 m₂ hwfs

/-- The mirror of a well-formed source listing has exactly the source's
paths. -/
theorem mirror_existsAt : ∀ (p : List String) (sch : Children)
    (x y : Nat), wfCh sch = true →
    existsAt (.dir x (mirrorCh sch)) p = existsAt (.dir y sch) p
  | [], sch, x, y, _ => rfl
  | n :: rest, sch, x, y, hwf => by
    rw [existsAt_cons, existsAt_cons]
    cases ho : sch.lookup n with
    | none =>
      have hh : sch.hasName n = false := by simp [Children.hasName, ho]
      have hm : (mirrorCh sch).lookup n = none :=
        lookup_append_none _ _ n
          (mapFiles_lookup_none sch n (not_hasName_not_hasFileName sch n hh))
          (mirrorDirs_lookup_none sch n (not_hasName_not_hasDirName sch n hh))
      rw [hm]
    | some e =>
      cases e with
      | file c m rd =>
        rw [mirrorCh_lookup_file sch n c m rd ho]
        exact existsAt_file c m true rd rest
      | dir m₂ sub =>
        rw [mirrorCh_lookup_dir sch n m₂ sub hwf ho]
        have hwfs : wfCh sub = true := wf_lookup sch n _ hwf ho
        exact mirror_existsAt rest sub 0 m₂ hwfs

/-- C1 amended: for a finite source tree with distinct names per directory,
no entry name ending in ".tmp", all files readable and no injected I/O
faults, one reconciliation pass starting from an empty replica root
succeeds with every file copied, every directory created, nothing removed
and no errors, and produces exactly the mirror of the source: every path
carries the same file content as the source (byte-identical files at
mirrored paths) and exactly the source's paths exist (no orphans). -/
theorem C1_convergence_amended (sch : Children) (ms md : Nat)
    (hwf : wfCh sch = true) (hnt : noTmpCh sch = true)
    (hrd : readableCh sch = true) :
    runPass cf0 rf0 (.dir ms sch) (.dir md .nil) =
      some (⟨countFiles sch, 0, countDirs sch, 0, 0⟩,
        .dir md (mirrorCh sch)) ∧
    (∀ p, contentAt (.dir md (mirrorCh sch)) p =
      contentAt (.dir ms sch) p) ∧
    (∀ p, existsAt (.dir md (mirrorCh sch)) p =
      existsAt (.dir ms sch) p) :=
  ⟨runPass_empty sch ms md hwf hnt hrd,
    fun p => mirror_contentAt p sch md ms hwf,
    fun p => mirror_existsAt p sch md ms hwf⟩

/-- C1 amended, witness at a concrete input. -/
theorem C1_convergence_amended_wit :
    (wfCh (.cons "a.txt" (.file [7] 1 true)
        (.cons "d" (.dir 3 (.cons "g" (.file [8, 9] 2 true) .nil)) .nil)) =
      true ∧
     noTmpCh (.cons "a.txt" (.file [7] 1 true)
        (.cons "d" (.dir 3 (.cons "g" (.file [8, 9] 2 true) .nil)) .nil)) =
      true ∧
     readableCh (.cons "a.txt" (.file [7] 1 true)
        (.cons "d" (.dir 3 (.cons "g" (.file [8, 9] 2 true) .nil)) .nil)) =
      true) ∧
    runPass cf0 rf0
      (.dir 0 (.cons "a.txt" (.file [7] 1 true)
        (.cons "d" (.dir 3 (.cons "g" (.file [8, 9] 2 true) .nil)) .nil)))
      (.dir 5 .nil) =
      some (⟨2, 0, 1, 0, 0⟩,
        .dir 5 (mirrorCh (.cons "a.txt" (.file [7] 1 true)
          (.cons "d" (.dir 3 (.cons "g" (.file [8, 9] 2 true) .nil))
            .nil)))) :=
  ⟨⟨by decide, by decide, by decide⟩,
    (C1_convergence_amended
      (.cons "a.txt" (.file [7] 1 true)
        (.cons "d" (.dir 3 (.cons "g" (.file [8, 9] 2 true) .nil)) .nil))
      0 5 (by decide) (by decide) (by decide)).1⟩

/-- A readable file is never judged different from an identical readable
replica file: equal sizes, and either the mtime fast path or equal
digests. -/
theorem afd_self (c : List Nat) (m : Nat) :
    are_files_different (some (.file c m true))
      (some (.file c m true)) = false := by
  simp [are_files_different, statOf, calculate_file_hash]

/-- The forward file loop copies nothing when the replica directory already
holds every source file with identical content and mtime. -/
theorem syncFiles_noop : ∀ (sch : Children) (relp : List String)
    (acc : Children), wfCh sch = true → readableCh sch = true →
    (∀ k c m rd, sch.lookup k = some (.file c m rd) →
      acc.lookup k = some (.file c m true)) →
    syncFiles cf0 relp sch acc = (0, 0, acc)
  | .nil, _, _, _, _, _ => rfl
  | .cons n e rest, relp, acc, hwf, hrd, hpre => by
    simp only [wfCh, Bool.and_eq_true, Bool.not_eq_true'] at hwf
    simp only [readableCh, Bool.and_eq_true] at hrd
    have htail : ∀ k c m rd, rest.lookup k = some (.file c m rd) →
        acc.lookup k = some (.file c m true) := by
      intro k c m rd hk
      have hkn : n ≠ k := by
        intro he
        rw [← he] at hk
        rw [lookup_hasName rest n _ hk] at hwf
        exact Bool.noConfusion hwf.1.1
      refine hpre k c m rd ?_
      simpa [Children.lookup, hkn] using hk
    cases e with
    | dir m sub =>
      simp only [syncFiles]
      exact syncFiles_noop rest relp acc hwf.2 hrd.2 htail
    | file c m rd =>
      have hrdt : rd = true := hrd.1
      subst hrdt
      have hl : acc.lookup n = some (.file c m true) :=
        hpre n c m true (by simp [Children.lookup])
      simp only [syncFiles, cf0, hl, afd_self, Bool.false_eq_true, if_false]
      exact syncFiles_noop rest relp acc hwf.2 hrd.2 htail

/-- The forward directory loop creates nothing when every source directory
name already exists in the replica directory. -/
theorem syncMkdirs_noop : ∀ (sch : Children) (acc : Children),
    (∀ k, hasDirName sch k = true → acc.hasName k = true) →
    syncMkdirs sch acc = (0, acc)
  | .nil, _, _ => rfl
  | .cons n e rest, acc, hpre => by
    cases e with
    | file c m rd =>
      simp only [syncMkdirs]
      exact syncMkdirs_noop rest acc
        (fun k hk => hpre k (by simp [hasDirName, hk]))
    | dir m sub =>
      have hn : acc.hasName n = true := hpre n (by simp [hasDirName])
      simp only [syncMkdirs, hn, if_true]
      exact syncMkdirs_noop rest acc
        (fun k hk => hpre k (by simp [hasDirName, hk]))

/-- The forward recursion changes nothing when every source subdirectory's
replica child is already the mirror of its source subtree. -/
theorem syncSubdirs_noop : ∀ (sch : Children) (relp : List String)
    (acc : Children), wfCh sch = true → readableCh sch = true →
    (∀ k m₂ sub₂, sch.lookup k = some (.dir m₂ sub₂) →
      acc.lookup k = some (.dir 0 (mirrorCh sub₂))) →
    syncSubdirs cf0 relp sch acc = some (0, 0, 0, acc)
  | .nil, _, _, _, _, _ => rfl
  | .cons n e rest, relp, acc, hwf, hrd, hpre => by
    simp only [wfCh, Bool.and_eq_true, Bool.not_eq_true'] at hwf
    simp only [readableCh, Bool.and_eq_true] at hrd
    have htail : ∀ k m₂ sub₂, rest.lookup k = some (.dir m₂ sub₂) →
        acc.lookup k = some (.dir 0 (mirrorCh sub₂)) := by
      intro k m₂ sub₂ hk
      have hkn : n ≠ k := by
        intro he
        rw [← he] at hk
        rw [lookup_hasName rest n _ hk] at hwf
        exact Bool.noConfusion hwf.1.1
      refine hpre k m₂ sub₂ ?_
      simpa [Children.lookup, hkn] using hk
    cases e with
    | file c m rd =>
      show syncSubdirs cf0 relp rest acc = _
      exact syncSubdirs_noop rest relp acc hwf.2 hrd.2 htail
    | dir m sub =>
      have hwfs : wfCh sub = true := hwf.1.2
      have hrds : readableCh sub = true := hrd.1
      have hl : acc.lookup n = some (.dir 0 (mirrorCh sub)) :=
        hpre n m sub (by simp [Children.lookup])
      have h0 : dirOrMake (acc.lookup n) = some (0, mirrorCh sub) := by
        rw [hl]
        rfl
      have h1 : syncFiles cf0 (relp ++ [n]) sub (mirrorCh sub) =
          (0, 0, mirrorCh sub) := by
        refine syncFiles_noop sub (relp ++ [n]) (mirrorCh sub) hwfs hrds ?_
        intro k c m₃ rd hk
        exact mirrorCh_lookup_file sub k c m₃ rd hk
      have h2 : syncMkdirs sub (mirrorCh sub) = (0, mirrorCh sub) := by
        refine syncMkdirs_noop sub (mirrorCh sub) ?_
        intro k hk
        have := wf_hasDirName_lookup sub k hwfs hk
        rcases ho : sub.lookup k with _ | e₂
        · rw [ho] at this
          exact absurd this (by simp)
        · cases e₂ with
          | file c₂ m₂ rd₂ =>
            rw [ho] at this
            exact absurd (Option.some.inj this) (by simp [Entry.isDir])
          | dir m₂ sub₂ =>
            exact lookup_hasName _ k _
              (mirrorCh_lookup_dir sub k m₂ sub₂ hwfs ho)
      have h3 : syncSubdirs cf0 (relp ++ [n]) sub (mirrorCh sub) =
          some (0, 0, 0, mirrorCh sub) := by
        refine syncSubdirs_noop sub (relp ++ [n]) (mirrorCh sub) hwfs
          hrds ?_
        intro k m₂ sub₂ hk
        exact mirrorCh_lookup_dir sub k m₂ sub₂ hwfs hk
      have hset : acc.set n (.dir 0 (mirrorCh sub)) = acc :=
        set_self_eq acc n _ hl
      have h4 : syncSubdirs cf0 relp rest (acc.set n (.dir 0 (mirrorCh sub)))
          = some (0, 0, 0, acc) := by
        rw [hset]
        exact syncSubdirs_noop rest relp acc hwf.2 hrd.2 htail
      rw [syncSubdirs.eq_def]
      simp only [h0, h1, h2, h3, h4, cf0]

/-- The fault-free forward pass over the exact mirror of a well-formed,
readable source tree copies nothing, creates nothing, reports no errors
and leaves the replica unchanged. -/
theorem sync_forward_mirror (sch : Children) (ms md : Nat)
    (hwf : wfCh sch = true) (hrd : readableCh sch = true) :
    sync_source_to_replica cf0 (.dir ms sch) (.dir md (mirrorCh sch)) =
      some (0, 0, 0, .dir md (mirrorCh sch)) := by
  have h1 : syncFiles cf0 [] sch (mirrorCh sch) = (0, 0, mirrorCh sch) := by
    refine syncFiles_noop sch [] (mirrorCh sch) hwf hrd ?_
    intro k c m rd hk
    exact mirrorCh_lookup_file sch k c m rd hk
  have h2 : syncMkdirs sch (mirrorCh sch) = (0, mirrorCh sch) := by
    refine syncMkdirs_noop sch (mirrorCh sch) ?_
    intro k hk
    have := wf_hasDirName_lookup sch k hwf hk
    rcases ho : sch.lookup k with _ | e₂
    · rw [ho] at this
      exact absurd this (by simp)
    · cases e₂ with
      | file c₂ m₂ rd₂ =>
        rw [ho] at this
        exact absurd (Option.some.inj this) (by simp [Entry.isDir])
      | dir m₂ sub₂ =>
        exact lookup_hasName _ k _
          (mirrorCh_lookup_dir sch k m₂ sub₂ hwf ho)
  have h3 : syncSubdirs cf0 [] sch (mirrorCh sch) =
      some (0, 0, 0, mirrorCh sch) := by
    refine syncSubdirs_noop sch [] (mirrorCh sch) hwf hrd ?_
    intro k m₂ sub₂ hk
    exact mirrorCh_lookup_dir sch k m₂ sub₂ hwf hk
  show (match dirOrMake (some (Entry.dir md (mirrorCh sch))) with
    | none => none
    | some (md₂, r0) =>
      match syncFiles cf0 [] sch r0 with
      | (fc₁, er₁, r1) =>
        match syncMkdirs sch r1 with
        | (dc₁, r2) =>
          match syncSubdirs cf0 [] sch r2 with
          | none => none
          | some (fc₂, dc₂, er₂, r3) =>
            some (fc₁ + fc₂, dc₁ + dc₂, er₁ + er₂, Entry.dir md₂ r3)) = _
  have h0 : dirOrMake (some (Entry.dir md (mirrorCh sch))) =
      some (md, mirrorCh sch) := rfl
  simp only [h0, h1, h2, h3]

/-- C2 amended: for a source tree with distinct names per directory, no
entry name ending in ".tmp", all files readable and no injected I/O faults,
the first reconciliation pass from an empty replica produces the mirror,
and the second pass reports files_copied = files_removed = dirs_created =
dirs_removed = errors = 0 and leaves the replica unchanged. -/
theorem C2_idempotence_amended (sch : Children) (ms md : Nat)
    (hwf : wfCh sch = true) (hnt : noTmpCh sch = true)
    (hrd : readableCh sch = true) :
    runPass cf0 rf0 (.dir ms sch) (.dir md .nil) =
      some (⟨countFiles sch, 0, countDirs sch, 0, 0⟩,
        .dir md (mirrorCh sch)) ∧
    runPass cf0 rf0 (.dir ms sch) (.dir md (mirrorCh sch)) =
      some (⟨0, 0, 0, 0, 0⟩, .dir md (mirrorCh sch)) := by
  refine ⟨runPass_empty sch ms md hwf hnt hrd, ?_⟩
  unfold runPass
  rw [sync_forward_mirror sch ms md hwf hrd]
  simp only [clean_mirror sch rf0 ms md hwf]

/-- C2 amended, witness at a concrete input. -/
theorem C2_idempotence_amended_wit :
    (wfCh (.cons "a.txt" (.file [7] 1 true)
        (.cons "d" (.dir 3 (.cons "g" (.file [8, 9] 2 true) .nil)) .nil)) =
      true ∧
     noTmpCh (.cons "a.txt" (.file [7] 1 true)
        (.cons "d" (.dir 3 (.cons "g" (.file [8, 9] 2 true) .nil)) .nil)) =
      true ∧
     readableCh (.cons "a.txt" (.file [7] 1 true)
        (.cons "d" (.dir 3 (.cons "g" (.file [8, 9] 2 true) .nil)) .nil)) =
      true) ∧
    runPass cf0 rf0
      (.dir 0 (.cons "a.txt" (.file [7] 1 true)
        (.cons "d" (.dir 3 (.cons "g" (.file [8, 9] 2 true) .nil)) .nil)))
      (.dir 5 (mirrorCh (.cons "a.txt" (.file [7] 1 true)
        (.cons "d" (.dir 3 (.cons "g" (.file [8, 9] 2 true) .nil))
          .nil)))) =
      some (⟨0, 0, 0, 0, 0⟩,
        .dir 5 (mirrorCh (.cons "a.txt" (.file [7] 1 true)
          (.cons "d" (.dir 3 (.cons "g" (.file [8, 9] 2 true) .nil))
            .nil)))) :=
  ⟨⟨by decide, by decide, by decide⟩,
    (C2_idempotence_amended
      (.cons "a.txt" (.file [7] 1 true)
        (.cons "d" (.dir 3 (.cons "g" (.file [8, 9] 2 true) .nil)) .nil))
      0 5 (by decide) (by decide) (by decide)).2⟩

/-- In a listing with no ".tmp" names, every present name is
".tmp"-free. -/
theorem noTmp_hasName : ∀ (ch : Children) (k : String),
    noTmpCh ch = true → ch.hasName k = true → endsTmp k = false
  | .cons n e rest, k, hnt, hk => by
    simp only [noTmpCh, Bool.and_eq_true, Bool.not_eq_true'] at hnt
    by_cases hn : n = k
    · rw [← hn]
      exact hnt.1.1
    · refine noTmp_hasName rest k hnt.2 ?_
      simpa [Children.hasName, Children.lookup, hn] using hk

/-- A copy_file call, successful or failed, only ever writes at the
destination name and its ".tmp" temporary name. -/
theorem copy_file_lookup_ne (fault : Option Nat) (sE : Option Entry)
    (ch : Children) (dst k : String) (hk : k ≠ dst)
    (ht : endsTmp k = false) :
    (copy_file fault sE ch dst).2.lookup k = ch.lookup k := by
  have htk : tmpNameOf dst ≠ k := by
    intro he
    rw [← he] at ht
    rw [endsTmp_tmpNameOf dst] at ht
    exact Bool.noConfusion ht
  have hcp := copy2_lookup_ne fault sE ch (tmpNameOf dst) k htk
  unfold copy_file
  cases hres : copy2 fault sE ch (tmpNameOf dst) with
  | fail ch₂ =>
    rw [hres] at hcp
    simp only [hres]
    simpa [CopyResult.state] using hcp
  | ok ch₂ =>
    rw [hres] at hcp
    simp only [CopyResult.state] at hcp
    cases hro : osReplace ch₂ (tmpNameOf dst) dst with
    | none =>
      simp only [hres, hro]
      exact hcp
    | some ch₃ =>
      simp only [hres, hro]
      unfold osReplace at hro
      cases hlt : ch₂.lookup (tmpNameOf dst) with
      | none =>
        rw [hlt] at hro
        exact absurd hro (by simp)
      | some e =>
        simp only [hlt] at hro
        by_cases heq : tmpNameOf dst = dst
        · rw [if_pos heq] at hro
          cases Option.some.inj hro
          exact hcp
        · rw [if_neg heq] at hro
          rcases hld : ch₂.lookup dst with _ | e₂
          · rw [hld] at hro
            cases Option.some.inj hro
            rw [lookup_set_ne _ dst k _ (fun he => hk he.symm),
              lookup_erase_ne _ (tmpNameOf dst) k htk]
            exact hcp
          · rw [hld] at hro
            cases e₂ with
            | dir m₂ c₂ => exact absurd hro (by simp)
            | file c₂ m₂ rd₂ =>
              cases Option.some.inj hro
              rw [lookup_set_ne _ dst k _ (fun he => hk he.symm),
                lookup_erase_ne _ (tmpNameOf dst) k htk]
              exact hcp

/-- The forward file loop, under any faults, only ever writes at file-child
names and ".tmp" temporary names. -/
theorem syncFiles_lookup_ne : ∀ (sch : Children)
    (cf : List String → Option Nat) (relp : List String) (acc : Children)
    (k : String), hasFileName sch k = false → endsTmp k = false →
    (syncFiles cf relp sch acc).2.2.lookup k = acc.lookup k
  | .nil, _, _, _, _, _, _ => rfl
  | .cons n e rest, cf, relp, acc, k, hf, ht => by
    cases e with
    | dir m sub =>
      simp only [hasFileName] at hf
      simp only [syncFiles]
      exact syncFiles_lookup_ne rest cf relp acc k hf ht
    | file c m rd =>
      simp only [hasFileName, Bool.or_eq_false_iff,
        decide_eq_false_iff_not] at hf
      have hkn : k ≠ n := fun he => hf.1 he.symm
      simp only [syncFiles]
      by_cases hd : are_files_different (some (.file c m rd))
          (acc.lookup n) = true
      · simp only [hd, if_true]
        rcases hc : copy_file (cf (relp ++ [n])) (some (.file c m rd))
            acc n with ⟨b, ch₂⟩
        have hcl := copy_file_lookup_ne (cf (relp ++ [n]))
          (some (.file c m rd)) acc n k hkn ht
        rw [hc] at hcl
        simp only [] at hcl
        have hrec := syncFiles_lookup_ne rest cf relp ch₂ k hf.2 ht
        cases b with
        | true =>
          rcases h2 : syncFiles cf relp rest ch₂ with ⟨fc, er, ch₃⟩
          rw [h2] at hrec
          simp only [hc, h2]
          exact hrec.trans hcl
        | false =>
          rcases h2 : syncFiles cf relp rest ch₂ with ⟨fc, er, ch₃⟩
          rw [h2] at hrec
          simp only [hc, h2]
          exact hrec.trans hcl
      · simp only [Bool.not_eq_true] at hd
        simp only [hd, Bool.false_eq_true, if_false]
        exact syncFiles_lookup_ne rest cf relp acc k hf.2 ht

/-- The forward recursion, under any faults, returns a stats record for a
well-formed source listing with no ".tmp" names when every mirrored
directory has been freshly created. -/
theorem syncSubdirs_total : ∀ (sch : Children)
    (cf : List String → Option Nat) (relp : List String) (acc : Children),
    wfCh sch = true → noTmpCh sch = true →
    (∀ k, hasDirName sch k = true → acc.lookup k = some (.dir 0 .nil)) →
    (syncSubdirs cf relp sch acc).isSome = true
  | .nil, _, _, _, _, _, _ => rfl
  | .cons n e rest, cf, relp, acc, hwf, hnt, hpre => by
    simp only [wfCh, Bool.and_eq_true, Bool.not_eq_true'] at hwf
    simp only [noTmpCh, Bool.and_eq_true, Bool.not_eq_true'] at hnt
    cases e with
    | file c m rd =>
      show (syncSubdirs cf relp rest acc).isSome = true
      exact syncSubdirs_total rest cf relp acc hwf.2 hnt.2
        (fun k hk => hpre k (by simp [hasDirName, hk]))
    | dir m sub =>
      have hwfs : wfCh sub = true := hwf.1.2
      have hnts : noTmpCh sub = true := hnt.1.2
      have hl : acc.lookup n = some (.dir 0 .nil) :=
        hpre n (by simp [hasDirName])
      have h0 : dirOrMake (acc.lookup n) = some (0, .nil) := by
        rw [hl]
        rfl
      rcases h1 : syncFiles cf (relp ++ [n]) sub .nil with ⟨fc, er, r1⟩
      have hfp : ∀ k, hasDirName sub k = true → r1.lookup k = none := by
        intro k hk
        have hkt : endsTmp k = false :=
          noTmp_hasName sub k hnts (hasDirName_hasName sub k hk)
        have h := syncFiles_lookup_ne sub cf (relp ++ [n]) .nil k
          (wf_hasDirName_not_hasFileName sub k hwfs hk) hkt
        rw [h1] at h
        exact h
      have h2 := syncMkdirs_fresh sub r1 hwfs hfp
      have hps : ∀ k, hasDirName sub k = true →
          (r1.append (emptyDirsTop sub)).lookup k =
            some (.dir 0 .nil) := by
        intro k hk
        rw [lookup_append_right _ _ k (hfp k hk)]
        exact emptyDirsTop_lookup sub k hk
      have h3 := syncSubdirs_total sub cf (relp ++ [n])
        (r1.append (emptyDirsTop sub)) hwfs hnts hps
      rcases ho : syncSubdirs cf (relp ++ [n]) sub
          (r1.append (emptyDirsTop sub)) with _ | t
      · rw [ho] at h3
        exact absurd h3 (by simp)
      · rcases t with ⟨fc₂, dc₂, er₂, r3⟩
        have h4 := syncSubdirs_total rest cf relp
          (acc.set n (.dir 0 r3)) hwf.2 hnt.2
          (fun k hk => by
            have hkn : n ≠ k := by
              intro he
              rw [he] at hwf
              rw [hasDirName_hasName rest k hk] at hwf
              exact Bool.noConfusion hwf.1.1
            rw [lookup_set_ne acc n k _ hkn]
            exact hpre k (by simp [hasDirName, hk]))
        rcases h4o : syncSubdirs cf relp rest (acc.set n (.dir 0 r3))
            with _ | t₂
        · rw [h4o] at h4
          exact absurd h4 (by simp)
        · rcases t₂ with ⟨fc₃, dc₃, er₃, out⟩
          rw [syncSubdirs.eq_def]
          simp only [h0, h1, h2, ho, h4o]
          rfl

/-- C7 amended: missing-path stat results, hashing failures, copy failures
and removal failures are all contained, and from an empty replica root a
reconciliation pass over any source tree with distinct names per directory
and no ".tmp"-suffixed entry names always yields a stats record, whatever
faults its file copies and removals suffer — even if every file fails.
But a directory-creation failure is not contained (the counterexample:
os.makedirs at line 169 runs outside any try block, so a replica file at a
mirrored directory path aborts the whole pass with no stats record). -/
theorem C7_no_escape_amended (cf : List String → Option Nat)
    (rf : List String → Bool) (src : Entry) (md : Nat)
    (hwf : wfE src = true) (hnt : noTmpE src = true) :
    (runPass cf rf src (.dir md .nil)).isSome = true := by
  cases src with
  | file c m rd => rfl
  | dir ms sch =>
    have hwfc : wfCh sch = true := hwf
    have hntc : noTmpCh sch = true := hnt
    rcases h1 : syncFiles cf [] sch .nil with ⟨fc, er, r1⟩
    have hfp : ∀ k, hasDirName sch k = true → r1.lookup k = none := by
      intro k hk
      have hkt : endsTmp k = false :=
        noTmp_hasName sch k hntc (hasDirName_hasName sch k hk)
      have h := syncFiles_lookup_ne sch cf [] .nil k
        (wf_hasDirName_not_hasFileName sch k hwfc hk) hkt
      rw [h1] at h
      exact h
    have h2 := syncMkdirs_fresh sch r1 hwfc hfp
    have hps : ∀ k, hasDirName sch k = true →
        (r1.append (emptyDirsTop sch)).lookup k = some (.dir 0 .nil) := by
      intro k hk
      rw [lookup_append_right _ _ k (hfp k hk)]
      exact emptyDirsTop_lookup sch k hk
    have h3 := syncSubdirs_total sch cf [] (r1.append (emptyDirsTop sch))
      hwfc hntc hps
    rcases ho : syncSubdirs cf [] sch (r1.append (emptyDirsTop sch))
        with _ | t
    · rw [ho] at h3
      exact absurd h3 (by simp)
    · rcases t with ⟨fc₂, dc₂, er₂, r3⟩
      have hfwd : sync_source_to_replica cf (.dir ms sch) (.dir md .nil) =
          some (fc + fc₂, countDirsTop sch + dc₂, er + er₂,
            .dir md r3) := by
        show (match dirOrMake (some (Entry.dir md Children.nil)) with
          | none => none
          | some (md₂, r0) =>
            match syncFiles cf [] sch r0 with
            | (fc₁, er₁, r1b) =>
              match syncMkdirs sch r1b with
              | (dc₁, r2) =>
                match syncSubdirs cf [] sch r2 with
                | none => none
                | some (fc₃, dc₃, er₃, r3b) =>
                  some (fc₁ + fc₃, dc₁ + dc₃, er₁ + er₃,
                    Entry.dir md₂ r3b)) = _
        have h0 : dirOrMake (some (Entry.dir md Children.nil)) =
            some (md, Children.nil) := rfl
        simp only [h0, h1, h2, ho]
      unfold runPass
      rw [hfwd]
      rcases hcl : clean_replica rf (.dir ms sch) (.dir md r3)
        with ⟨fr, dr, rep₂⟩
      simp [hcl]

/-- C7 amended, witness at a concrete input: every copy and removal fails
(the file is unreadable and all faults fire), yet the pass yields a stats
record. -/
theorem C7_no_escape_amended_wit :
    (wfE (.dir 0 (.cons "u" (.file [1] 1 false)
        (.cons "d" (.dir 0 .nil) .nil))) = true ∧
     noTmpE (.dir 0 (.cons "u" (.file [1] 1 false)
        (.cons "d" (.dir 0 .nil) .nil))) = true) ∧
    (runPass (fun _ => some 0) (fun _ => true)
      (.dir 0 (.cons "u" (.file [1] 1 false)
        (.cons "d" (.dir 0 .nil) .nil)))
      (.dir 9 .nil)).isSome = true :=
  ⟨⟨by decide, by decide⟩,
    C7_no_escape_amended (fun _ => some 0) (fun _ => true)
      (.dir 0 (.cons "u" (.file [1] 1 false)
        (.cons "d" (.dir 0 .nil) .nil))) 9 (by decide) (by decide)⟩

end FSync
